import Mathlib

/-!
Non-preemptive Arduino task scheduler: embedding of `TaskScheduler.cpp`.

The linked list `tasks.front` is embedded as a `List task`, read front to back
(every node is freshly allocated by `scheduleTask`, so the list is acyclic and
unshared).  Every operation of the source becomes a function on the explicit
global state `Scheduler`.

Modelling choices:
* `long` is the 32-bit two's complement type of the AVR targets; the only
  arithmetic on it, `elapsedTime += TIMER1_PERIOD`, wraps (`wrapLong`).
* `tasks.count` is an `Int` that is only ever incremented; overflowing it
  would take more live heap nodes than any target has memory for, so it is
  not wrapped.
* `malloc` is taken to succeed.
* a callback `taskFunc` is identified by a number (its address).  Calling it
  is recorded as a `call` event carrying the position of the node under the
  cursor; callbacks are taken not to touch the scheduler's globals.
* the TimerOne peripheral (`Timer1.…`) and `interrupts()` are outside the
  embedding; passes of `scheduleTimerISR` are applied one after another.
-/

namespace TaskScheduler

/-- Function pointer `void(*)(void)`, identified by its address. -/
abbrev taskFunc := Nat

/-- The enum `taskPriority`; smaller number = higher priority. -/
inductive taskPriority where
  | PRIOR_VERY_HIGH
  | PRIOR_HIGH
  | PRIOR_MEDIUM
  | PRIOR_LOW
  | PRIOR_VERY_LOW
  deriving DecidableEq, Repr

open taskPriority

/-- Numeric value of an enumerator (`PRIOR_VERY_HIGH = 1` … `PRIOR_VERY_LOW = 5`). -/
def taskPriority.rank : taskPriority → Nat
  | PRIOR_VERY_HIGH => 1
  | PRIOR_HIGH => 2
  | PRIOR_MEDIUM => 3
  | PRIOR_LOW => 4
  | PRIOR_VERY_LOW => 5

/-- The struct `task`. -/
structure task where
  ID : Int
  period : Int
  elapsedTime : Int
  func : taskFunc
  priority : taskPriority
  isEnabled : Bool
  deriving DecidableEq, Repr

/-- The struct `taskList`: node count and the nodes reachable from `front`. -/
structure taskList where
  count : Int
  front : List task
  deriving DecidableEq, Repr

/-- The global variables of `TaskScheduler.cpp`. -/
structure Scheduler where
  tasks : taskList
  currentPriority : taskPriority
  processingTasks : Bool
  TIMER1_PERIOD : Int
  deriving DecidableEq, Repr

/-- One execution of `cursor->taskData.func()`: which node was under the cursor
(position from the front, 0-based) and which function was called. -/
structure call where
  node : Nat
  func : taskFunc
  deriving DecidableEq, Repr

/-- Largest value of a 32-bit `long`. -/
def LONG_MAX : Int := 2147483647

/-- Smallest value of a 32-bit `long`. -/
def LONG_MIN : Int := -2147483648

/-- Result of a `long` addition: the mathematical sum reduced to 32-bit two's complement. -/
def wrapLong (x : Int) : Int := (x + 2147483648) % 4294967296 - 2147483648

/-- Values of the globals at program start (lines 25-28); `tasks` is zero-initialised. -/
def startupGlobals : Scheduler :=
  { tasks := { count := 0, front := [] }
    currentPriority := PRIOR_VERY_HIGH
    processingTasks := false
    TIMER1_PERIOD := 1000000 }

/-- `initScheduler(period)`, lines 30-39. `currentPriority` is not assigned. -/
def initScheduler (period : Int) (s : Scheduler) : Scheduler :=
  { s with
    tasks := { count := 0, front := [] }
    processingTasks := false
    TIMER1_PERIOD := period }

/-- `createTask`, lines 41-51. -/
def createTask (ID : Int) (period : Int) (func : taskFunc) (priority : taskPriority)
    (isEnabled : Bool) : task :=
  { ID := ID, period := period, elapsedTime := 0, func := func, priority := priority,
    isEnabled := isEnabled }

/-- The search loop of `scheduleTask` (lines 75-81) with `cursor` on the first argument and
`cursor->next` the second: the cursor advances while the new node's priority value is `>=` the
cursor's and the cursor has a successor; the new node is then linked in right after the cursor. -/
def insertAfterCursor (node : task) : task → List task → List task
  | cursor, [] => [cursor, node]
  | cursor, nxt :: rest =>
    if node.priority.rank ≥ cursor.priority.rank then
      cursor :: insertAfterCursor node nxt rest
    else
      cursor :: node :: nxt :: rest

/-- `scheduleTask`, lines 53-84. -/
def scheduleTask (newTask : task) (s : Scheduler) : Scheduler :=
  { s with
    tasks :=
      { count := s.tasks.count + 1
        front :=
          match s.tasks.front with
          | [] => [newTask]
          | cursor :: rest => insertAfterCursor newTask cursor rest } }

/-- The loop of `enableTask` (lines 90-102) from the cursor on: the list after the call and the
returned flag. -/
def enableTaskLoop (ID : Int) : List task → List task × Bool
  | [] => ([], false)
  | t :: rest =>
    if t.ID = ID then
      ({ t with isEnabled := true } :: rest, true)
    else
      let r := enableTaskLoop ID rest
      (t :: r.1, r.2)

/-- `enableTask`, lines 86-103: new state and return value. -/
def enableTask (ID : Int) (s : Scheduler) : Scheduler × Bool :=
  let r := enableTaskLoop ID s.tasks.front
  ({ s with tasks := { s.tasks with front := r.1 } }, r.2)

/-- The loop of `disableTask` (lines 109-121) from the cursor on. -/
def disableTaskLoop (ID : Int) : List task → List task × Bool
  | [] => ([], false)
  | t :: rest =>
    if t.ID = ID then
      ({ t with isEnabled := false } :: rest, true)
    else
      let r := disableTaskLoop ID rest
      (t :: r.1, r.2)

/-- `disableTask`, lines 105-122: new state and return value. -/
def disableTask (ID : Int) (s : Scheduler) : Scheduler × Bool :=
  let r := disableTaskLoop ID s.tasks.front
  ({ s with tasks := { s.tasks with front := r.1 } }, r.2)

/-- The loop of `getTaskTimeElapsed` (lines 128-139) from the cursor on. -/
def getTaskTimeElapsedLoop (ID : Int) : List task → Int
  | [] => -1
  | t :: rest => if t.ID = ID then t.elapsedTime else getTaskTimeElapsedLoop ID rest

/-- `getTaskTimeElapsed`, lines 124-140: state after the call (no global is assigned) and
return value. -/
def getTaskTimeElapsed (ID : Int) (s : Scheduler) : Scheduler × Int :=
  (s, getTaskTimeElapsedLoop ID s.tasks.front)

/-- Body of the `while` loop of `scheduleTimerISR` (lines 156-165) for the node at position `i`:
the node afterwards, `currentPriority` afterwards, and the calls made. -/
def visitNode (timer : Int) (i : Nat) (t : task) (cp : taskPriority) :
    task × taskPriority × List call :=
  if t.isEnabled then
    if t.elapsedTime ≥ t.period then
      ({ t with elapsedTime := wrapLong (0 + timer) }, t.priority, [{ node := i, func := t.func }])
    else
      ({ t with elapsedTime := wrapLong (t.elapsedTime + timer) }, cp, [])
  else
    (t, cp, [])

/-- The `while (cursor != NULL)` loop of `scheduleTimerISR` (lines 154-168), cursor at position
`i`: nodes afterwards, `currentPriority` afterwards, calls in the order made. -/
def dispatchLoop (timer : Int) : Nat → List task → taskPriority →
    List task × taskPriority × List call
  | _, [], cp => ([], cp, [])
  | i, t :: rest, cp =>
    let v := visitNode timer i t cp
    let r := dispatchLoop timer (i + 1) rest v.2.1
    (v.1 :: r.1, r.2.1, v.2.2 ++ r.2.2)

/-- `scheduleTimerISR`, lines 142-171: state after the pass and the calls it made. -/
def scheduleTimerISR (s : Scheduler) : Scheduler × List call :=
  if s.processingTasks then
    (s, [])
  else
    let r := dispatchLoop s.TIMER1_PERIOD 0 s.tasks.front s.currentPriority
    ({ s with
        tasks := { s.tasks with front := r.1 }
        currentPriority := r.2.1
        processingTasks := false }, r.2.2)

/-- Registers the descriptors of `ts` one after another, first element first. -/
def scheduleAll (ts : List task) (s : Scheduler) : Scheduler :=
  ts.foldl (fun acc t => scheduleTask t acc) s

/-- Runs `n` passes of `scheduleTimerISR` in sequence: final state and, per pass, its calls. -/
def runPasses : Nat → Scheduler → Scheduler × List (List call)
  | 0, s => (s, [])
  | n + 1, s =>
    let r := scheduleTimerISR s
    let q := runPasses n r.1
    (q.1, r.2 :: q.2)

/-- Registry order required by the header comment: priority values never decrease front to
back (highest priority first). -/
def sortedByRank (l : List task) : Prop :=
  List.Pairwise (fun a b => a.priority.rank ≤ b.priority.rank) l

instance (l : List task) : Decidable (sortedByRank l) := by
  unfold sortedByRank; infer_instance

/-- Stable priority insertion as the specification words it: the new descriptor goes immediately
before the first existing descriptor whose priority value is strictly greater than its own, or
after the tail when there is none. -/
def stableInsert (node : task) : List task → List task
  | [] => [node]
  | t :: rest =>
    if node.priority.rank < t.priority.rank then node :: t :: rest
    else t :: stableInsert node rest

/-- Number of calls of the function `f` over a sequence of passes. -/
def timesCalled (f : taskFunc) (passes : List (List call)) : Nat :=
  (passes.map (fun p => p.countP (fun c => c.func == f))).sum

/-- Functions called by one pass, in the order called. -/
def calledFuncs (p : List call) : List taskFunc := p.map (fun c => c.func)

/-- A node is due when the two tests of lines 156 and 158 both succeed. -/
def due (t : task) : Bool := t.isEnabled && decide (t.elapsedTime ≥ t.period)

/-- What one pass with the guard clear does to a node, written without the bookkeeping of
the loop. -/
def nodeAfterPass (timer : Int) (t : task) : task :=
  if t.isEnabled then
    if t.elapsedTime ≥ t.period then { t with elapsedTime := wrapLong (0 + timer) }
    else { t with elapsedTime := wrapLong (t.elapsedTime + timer) }
  else t

/-- Calls made by a pass whose cursor is at position `i` of the remaining nodes: one per due
node, in list order. -/
def dueCalls : Nat → List task → List call
  | _, [] => []
  | i, t :: rest =>
    if due t then { node := i, func := t.func } :: dueCalls (i + 1) rest
    else dueCalls (i + 1) rest

/-- Scenario of the specification: task A, period 3, high priority, callback 100. -/
def scenarioA : task := createTask 1 3 100 PRIOR_HIGH true

/-- Scenario of the specification: task B, period 1, low priority, callback 200. -/
def scenarioB : task := createTask 2 1 200 PRIOR_LOW true

/-- Scenario of the specification: tick period 1, A registered, then B. -/
def scenarioStart : Scheduler :=
  scheduleTask scenarioB (scheduleTask scenarioA (initScheduler 1 startupGlobals))

/-- Two descriptors sharing ID 7: the one registered first (period 10, `PRIOR_LOW`, enabled). -/
def dupFirst : task := createTask 7 10 200 PRIOR_LOW true

/-- Two descriptors sharing ID 7: the one registered later (period 20, `PRIOR_HIGH`, disabled). -/
def dupLater : task := createTask 7 20 300 PRIOR_HIGH false

/-- A descriptor with another ID, registered before the two that share ID 7. -/
def dupOther : task := createTask 1 10 100 PRIOR_VERY_LOW true

/-- Tick period 1; `dupOther`, `dupFirst`, `dupLater` registered in this order. -/
def duplicateStart : Scheduler :=
  scheduleAll [dupOther, dupFirst, dupLater] (initScheduler 1 startupGlobals)

/-- One call of the public interface after `initScheduler`, the calls being made one after
another (none from inside a callback or a nested interrupt). -/
inductive Op where
  | scheduleTask (t : task)
  | enableTask (ID : Int)
  | disableTask (ID : Int)
  | getTaskTimeElapsed (ID : Int)
  | scheduleTimerISR
  deriving DecidableEq, Repr

/-- State after one call of the interface. -/
def applyOp (op : Op) (s : Scheduler) : Scheduler :=
  match op with
  | .scheduleTask t => scheduleTask t s
  | .enableTask ID => (enableTask ID s).1
  | .disableTask ID => (disableTask ID s).1
  | .getTaskTimeElapsed ID => (getTaskTimeElapsed ID s).1
  | .scheduleTimerISR => (scheduleTimerISR s).1

/-- State after a sequence of calls, first element first. -/
def applyOps (ops : List Op) (s : Scheduler) : Scheduler :=
  ops.foldl (fun acc op => applyOp op acc) s

/-- Quotient `P / T` rounded up, for a positive `T`. -/
def ceilDiv (P T : Int) : Int := (P + T - 1) / T

/-- Position at which `scheduleTask` links the new node in: one past the first node whose
priority value is strictly greater than the new node's, or the length of the list when there is
no such node. -/
def insertPosition (node : task) (l : List task) : Nat :=
  min (l.findIdx (fun t => decide (node.priority.rank < t.priority.rank)) + 1) l.length

/-- A descriptor one tick short of the largest `long`: period `LONG_MAX`, `elapsedTime`
`LONG_MAX - 1`, enabled. -/
def overflowTask : task :=
  { ID := 1, period := 2147483647, elapsedTime := 2147483646, func := 100,
    priority := PRIOR_LOW, isEnabled := true }

/-- Tick period 2 and `overflowTask` as the only registered descriptor. -/
def overflowStart : Scheduler := scheduleTask overflowTask (initScheduler 2 startupGlobals)

/-- A node whose `elapsedTime` cannot overflow with tick period `T`: it is a multiple `j * T`
within the range of `long`, and so is the largest value it can reach before it is due,
`ceilDiv period T * T`. -/
def noOverflowNode (T : Int) (u : task) : Prop :=
  ∃ j : Nat, u.elapsedTime = (j : Int) * T ∧ (j : Int) * T ≤ LONG_MAX
    ∧ ceilDiv u.period T * T ≤ LONG_MAX

/-! ## Facts about the dispatch loop -/

theorem wrapLong_of_inRange (x : Int) (h1 : LONG_MIN ≤ x) (h2 : x ≤ LONG_MAX) :
    wrapLong x = x := by
  unfold wrapLong
  unfold LONG_MIN at h1
  unfold LONG_MAX at h2
  omega

theorem visitNode_node (timer : Int) (i : Nat) (t : task) (cp : taskPriority) :
    (visitNode timer i t cp).1 = nodeAfterPass timer t := by
  unfold visitNode nodeAfterPass
  split_ifs <;> rfl

theorem visitNode_calls (timer : Int) (i : Nat) (t : task) (cp : taskPriority) :
    (visitNode timer i t cp).2.2 = if due t then [{ node := i, func := t.func }] else [] := by
  unfold visitNode due
  by_cases h1 : t.isEnabled = true <;> by_cases h2 : t.elapsedTime ≥ t.period <;> simp [h1, h2]

theorem dispatchLoop_nodes (timer : Int) (l : List task) :
    ∀ (i : Nat) (cp : taskPriority),
      (dispatchLoop timer i l cp).1 = l.map (nodeAfterPass timer) := by
  induction l with
  | nil => intro i cp; rfl
  | cons t rest ih =>
    intro i cp
    simp only [dispatchLoop, List.map_cons, ih, visitNode_node]

theorem dispatchLoop_calls (timer : Int) (l : List task) :
    ∀ (i : Nat) (cp : taskPriority), (dispatchLoop timer i l cp).2.2 = dueCalls i l := by
  induction l with
  | nil => intro i cp; rfl
  | cons t rest ih =>
    intro i cp
    simp only [dispatchLoop, dueCalls, ih, visitNode_calls]
    by_cases h : due t = true <;> simp [h]

theorem mem_dueCalls (l : List task) :
    ∀ (i : Nat) (c : call), c ∈ dueCalls i l →
      ∃ n t, l[n]? = some t ∧ due t = true ∧ c = { node := i + n, func := t.func } := by
  induction l with
  | nil => intro i c h; simp [dueCalls] at h
  | cons t rest ih =>
    intro i c h
    unfold dueCalls at h
    by_cases hd : due t = true
    · rw [if_pos hd] at h
      rcases List.mem_cons.mp h with h | h
      · exact ⟨0, t, by simp, hd, by simpa using h⟩
      · obtain ⟨n, u, hn, hu, hc⟩ := ih (i + 1) c h
        refine ⟨n + 1, u, by simpa using hn, hu, ?_⟩
        rw [hc]
        congr 1
        omega
    · rw [if_neg hd] at h
      obtain ⟨n, u, hn, hu, hc⟩ := ih (i + 1) c h
      refine ⟨n + 1, u, by simpa using hn, hu, ?_⟩
      rw [hc]
      congr 1
      omega

theorem scheduleTimerISR_guard_set (s : Scheduler) (h : s.processingTasks = true) :
    scheduleTimerISR s = (s, []) := by
  unfold scheduleTimerISR
  rw [if_pos h]

theorem scheduleTimerISR_guard_clear (s : Scheduler) (h : s.processingTasks = false) :
    scheduleTimerISR s =
      ({ s with
          tasks := { s.tasks with front := s.tasks.front.map (nodeAfterPass s.TIMER1_PERIOD) }
          currentPriority :=
            (dispatchLoop s.TIMER1_PERIOD 0 s.tasks.front s.currentPriority).2.1
          processingTasks := false }, dueCalls 0 s.tasks.front) := by
  unfold scheduleTimerISR
  simp [h, dispatchLoop_nodes, dispatchLoop_calls]

/-! ## Registration order -/

/-- C1, the code at the failing input: after `initScheduler`, registering a `PRIOR_LOW`
descriptor and then a `PRIOR_HIGH` one leaves the low-priority descriptor at the front, so the
registry is not in non-decreasing order of priority value. -/
theorem scheduleTask_low_then_high_unsorted :
    (scheduleAll [createTask 1 10 100 PRIOR_LOW true, createTask 2 10 200 PRIOR_HIGH true]
        (initScheduler 1 startupGlobals)).tasks.front
      = [createTask 1 10 100 PRIOR_LOW true, createTask 2 10 200 PRIOR_HIGH true]
    ∧ ¬ sortedByRank
        (scheduleAll [createTask 1 10 100 PRIOR_LOW true, createTask 2 10 200 PRIOR_HIGH true]
          (initScheduler 1 startupGlobals)).tasks.front := by
  decide

/-- C2, the code at the failing input: after `initScheduler`, registering descriptors 1
(`PRIOR_VERY_LOW`), 2 (`PRIOR_MEDIUM`) and 3 (`PRIOR_MEDIUM`) in this order yields the registry
1, 3, 2: the two descriptors of equal priority are in the reverse of their registration order. -/
theorem scheduleTask_equal_priority_reversed :
    (scheduleAll
        [createTask 1 10 100 PRIOR_VERY_LOW true, createTask 2 10 200 PRIOR_MEDIUM true,
          createTask 3 10 300 PRIOR_MEDIUM true]
        (initScheduler 1 startupGlobals)).tasks.front
      = [createTask 1 10 100 PRIOR_VERY_LOW true, createTask 3 10 300 PRIOR_MEDIUM true,
          createTask 2 10 200 PRIOR_MEDIUM true] := by
  decide

/-- C3, the code at the failing input: on the non-empty registry holding one `PRIOR_LOW`
descriptor, `scheduleTask` of a `PRIOR_HIGH` descriptor puts it after the existing one, whereas
stable priority insertion puts it before; the two sequences differ. -/
theorem scheduleTask_differs_from_stableInsert :
    (scheduleTask (createTask 2 10 200 PRIOR_HIGH true)
        (scheduleTask (createTask 1 10 100 PRIOR_LOW true)
          (initScheduler 1 startupGlobals))).tasks.front
      = [createTask 1 10 100 PRIOR_LOW true, createTask 2 10 200 PRIOR_HIGH true]
    ∧ stableInsert (createTask 2 10 200 PRIOR_HIGH true)
        (scheduleTask (createTask 1 10 100 PRIOR_LOW true)
          (initScheduler 1 startupGlobals)).tasks.front
      = [createTask 2 10 200 PRIOR_HIGH true, createTask 1 10 100 PRIOR_LOW true]
    ∧ (scheduleTask (createTask 2 10 200 PRIOR_HIGH true)
        (scheduleTask (createTask 1 10 100 PRIOR_LOW true)
          (initScheduler 1 startupGlobals))).tasks.front
      ≠ stableInsert (createTask 2 10 200 PRIOR_HIGH true)
          (scheduleTask (createTask 1 10 100 PRIOR_LOW true)
            (initScheduler 1 startupGlobals)).tasks.front := by
  decide

/-! ## The scenario of the specification -/

/-- C4, refutation of the scenario as stated: in the first three passes the calls are none,
then B, then B; so after three passes B has been called twice and A not at all, and pass 3 does
not call A before B. -/
theorem scenario_three_passes_counterexample :
    (runPasses 3 scenarioStart).2
      = [[], [{ node := 1, func := 200 }], [{ node := 1, func := 200 }]]
    ∧ ¬ (timesCalled 200 (runPasses 3 scenarioStart).2 = 3
        ∧ timesCalled 100 (runPasses 3 scenarioStart).2 = 1
        ∧ ((runPasses 3 scenarioStart).2.get? 2).map calledFuncs = some [100, 200]) := by
  decide

/-- C4 as amended: the registry is A, B; in four passes the calls are none, then B, then B,
then A followed by B. Hence after four passes B has been called exactly 3 times (passes 2, 3
and 4), A exactly once (pass 4), and in pass 4 A is called before B. -/
theorem scenario_four_passes :
    scenarioStart.tasks.front = [scenarioA, scenarioB]
    ∧ (runPasses 4 scenarioStart).2
      = [[], [{ node := 1, func := 200 }], [{ node := 1, func := 200 }],
          [{ node := 0, func := 100 }, { node := 1, func := 200 }]]
    ∧ timesCalled 200 (runPasses 4 scenarioStart).2 = 3
    ∧ timesCalled 100 (runPasses 4 scenarioStart).2 = 1
    ∧ ((runPasses 4 scenarioStart).2.get? 3).map calledFuncs = some [100, 200] := by
  decide

/-! ## Due time -/

theorem runPasses_length (k : Nat) : ∀ s : Scheduler, (runPasses k s).2.length = k := by
  induction k with
  | zero => intro s; rfl
  | succ k ih => intro s; simp [runPasses, ih]

theorem not_early_from (i : Nat) (k : Nat) :
    ∀ (s : Scheduler) (t : task), s.tasks.front[i]? = some t → t.isEnabled = true →
      0 ≤ t.elapsedTime → 0 < s.TIMER1_PERIOD → t.period ≤ LONG_MAX →
      t.elapsedTime + k * s.TIMER1_PERIOD < t.period →
      ∀ p ∈ (runPasses k s).2, ∀ c ∈ p, c.node ≠ i := by
  induction k with
  | zero => intro s t _ _ _ _ _ _ p hp; simp [runPasses] at hp
  | succ k ih =>
    intro s t ht hen he hT hP hlt p hp
    have hstep : t.elapsedTime + k * s.TIMER1_PERIOD < t.period := by
      push_cast at hlt
      nlinarith
    have hlt1 : t.elapsedTime + s.TIMER1_PERIOD < t.period := by
      push_cast at hlt
      have : 0 ≤ (k : Int) * s.TIMER1_PERIOD := by positivity
      nlinarith
    cases hg : s.processingTasks with
    | true =>
      simp only [runPasses, scheduleTimerISR_guard_set s hg, List.mem_cons] at hp
      rcases hp with hp | hp
      · subst hp; intro c hc; simp at hc
      · exact ih s t ht hen he hT hP hstep p hp
    | false =>
      simp only [runPasses, scheduleTimerISR_guard_clear s hg, List.mem_cons] at hp
      rcases hp with hp | hp
      · subst hp
        intro c hc hci
        obtain ⟨n, u, hn, hu, hcu⟩ := mem_dueCalls _ 0 c hc
        have hni : n = i := by rw [hcu] at hci; simpa using hci
        rw [hni, ht] at hn
        have htu : t = u := Option.some.inj hn
        rw [← htu] at hu
        have hfalse : due t = false := by
          unfold due
          have : ¬ t.elapsedTime ≥ t.period := by omega
          simp [this]
        rw [hfalse] at hu
        exact Bool.noConfusion hu
      · have hnode : nodeAfterPass s.TIMER1_PERIOD t
            = { t with elapsedTime := t.elapsedTime + s.TIMER1_PERIOD } := by
          unfold nodeAfterPass
          have h1 : ¬ t.elapsedTime ≥ t.period := by omega
          rw [if_pos hen, if_neg h1, wrapLong_of_inRange]
          · unfold LONG_MIN; omega
          · omega
        refine ih _ (nodeAfterPass s.TIMER1_PERIOD t) ?_ ?_ ?_ ?_ ?_ ?_ p hp
        · simp [ht]
        · rw [hnode]; exact hen
        · rw [hnode]; simp only; omega
        · exact hT
        · rw [hnode]; exact hP
        · rw [hnode]; simp only
          push_cast at hlt
          nlinarith

/-- C5: a task never runs early. If the node at position `i` of the registry is a descriptor
made by `createTask` with period `P` (so `elapsedTime = 0`) and enabled, the tick period `T` is
positive, and `k * T < P` (with `P` a value of type `long`), then `k` passes of
`scheduleTimerISR` are `k` traces none of which contains a call made for node `i`. -/
theorem task_never_runs_early (s : Scheduler) (i : Nat) (ID P : Int) (f : taskFunc)
    (pr : taskPriority) (k : Nat)
    (hreg : s.tasks.front[i]? = some (createTask ID P f pr true))
    (hT : 0 < s.TIMER1_PERIOD) (hP : P ≤ LONG_MAX) (hk : k * s.TIMER1_PERIOD < P) :
    (runPasses k s).2.length = k ∧ ∀ p ∈ (runPasses k s).2, ∀ c ∈ p, c.node ≠ i := by
  refine ⟨runPasses_length k s, ?_⟩
  refine not_early_from i k s (createTask ID P f pr true) hreg rfl ?_ hT hP ?_
  · simp [createTask]
  · simpa [createTask] using hk

/-- C5 at a concrete input: tick period 2, the period-7 descriptor registered second (node 1)
of two; `3 * 2 < 7`, and none of the first three passes calls for node 1. -/
theorem task_never_runs_early_witness :
    (runPasses 3 (scheduleAll [createTask 1 2 100 PRIOR_LOW true,
        createTask 2 7 200 PRIOR_LOW true] (initScheduler 2 startupGlobals))).2.length = 3
    ∧ ∀ p ∈ (runPasses 3 (scheduleAll [createTask 1 2 100 PRIOR_LOW true,
        createTask 2 7 200 PRIOR_LOW true] (initScheduler 2 startupGlobals))).2,
        ∀ c ∈ p, c.node ≠ 1 :=
  task_never_runs_early
    (scheduleAll [createTask 1 2 100 PRIOR_LOW true, createTask 2 7 200 PRIOR_LOW true]
      (initScheduler 2 startupGlobals))
    1 2 7 200 PRIOR_LOW 3 (by decide) (by decide) (by decide) (by decide)

/-! ## Reentrancy guard -/

/-- C6: reentrancy drop. When `processingTasks` is set, `scheduleTimerISR` makes no call and
returns the state it was given, whole: registry, every descriptor, `currentPriority`,
`processingTasks` and `TIMER1_PERIOD`. -/
theorem scheduleTimerISR_reentrancy_drop (s : Scheduler) (h : s.processingTasks = true) :
    (scheduleTimerISR s).2 = [] ∧ (scheduleTimerISR s).1 = s := by
  rw [scheduleTimerISR_guard_set s h]
  exact ⟨rfl, rfl⟩

/-- C6 at a concrete input: the scenario state with the guard set and both tasks due. -/
theorem scheduleTimerISR_reentrancy_drop_witness :
    (scheduleTimerISR
        { tasks := { count := 2, front := [{ scenarioA with elapsedTime := 3 },
            { scenarioB with elapsedTime := 1 }] }
          currentPriority := PRIOR_VERY_HIGH
          processingTasks := true
          TIMER1_PERIOD := 1 }).2 = []
    ∧ (scheduleTimerISR
        { tasks := { count := 2, front := [{ scenarioA with elapsedTime := 3 },
            { scenarioB with elapsedTime := 1 }] }
          currentPriority := PRIOR_VERY_HIGH
          processingTasks := true
          TIMER1_PERIOD := 1 }).1
      = { tasks := { count := 2, front := [{ scenarioA with elapsedTime := 3 },
            { scenarioB with elapsedTime := 1 }] }
          currentPriority := PRIOR_VERY_HIGH
          processingTasks := true
          TIMER1_PERIOD := 1 } :=
  scheduleTimerISR_reentrancy_drop _ rfl

/-! ## Lookup by ID: `enableTask`, `disableTask`, `getTaskTimeElapsed` -/

theorem enableTaskLoop_elapsed (ID : Int) (l : List task) :
    (enableTaskLoop ID l).1.map (fun t => t.elapsedTime) = l.map (fun t => t.elapsedTime) := by
  induction l with
  | nil => rfl
  | cons t rest ih =>
    unfold enableTaskLoop
    by_cases h : t.ID = ID
    · simp [h]
    · simpa [h] using ih

theorem disableTaskLoop_elapsed (ID : Int) (l : List task) :
    (disableTaskLoop ID l).1.map (fun t => t.elapsedTime) = l.map (fun t => t.elapsedTime) := by
  induction l with
  | nil => rfl
  | cons t rest ih =>
    unfold disableTaskLoop
    by_cases h : t.ID = ID
    · simp [h]
    · simpa [h] using ih

theorem enableTaskLoop_ids (ID : Int) (l : List task) :
    (enableTaskLoop ID l).1.map (fun t => t.ID) = l.map (fun t => t.ID) := by
  induction l with
  | nil => rfl
  | cons t rest ih =>
    unfold enableTaskLoop
    by_cases h : t.ID = ID
    · simp [h]
    · simpa [h] using ih

theorem disableTaskLoop_ids (ID : Int) (l : List task) :
    (disableTaskLoop ID l).1.map (fun t => t.ID) = l.map (fun t => t.ID) := by
  induction l with
  | nil => rfl
  | cons t rest ih =>
    unfold disableTaskLoop
    by_cases h : t.ID = ID
    · simp [h]
    · simpa [h] using ih

theorem enableTaskLoop_found_iff (ID : Int) (l : List task) :
    (enableTaskLoop ID l).2 = true ↔ ∃ t ∈ l, t.ID = ID := by
  induction l with
  | nil => simp [enableTaskLoop]
  | cons t rest ih =>
    unfold enableTaskLoop
    by_cases h : t.ID = ID
    · simp [h]
    · simp [h, ih]

theorem disableTaskLoop_found_iff (ID : Int) (l : List task) :
    (disableTaskLoop ID l).2 = true ↔ ∃ t ∈ l, t.ID = ID := by
  induction l with
  | nil => simp [disableTaskLoop]
  | cons t rest ih =>
    unfold disableTaskLoop
    by_cases h : t.ID = ID
    · simp [h]
    · simp [h, ih]

theorem enableTaskLoop_not_found (ID : Int) (l : List task)
    (h : (enableTaskLoop ID l).2 = false) : (enableTaskLoop ID l).1 = l := by
  induction l with
  | nil => rfl
  | cons t rest ih =>
    unfold enableTaskLoop at h ⊢
    by_cases hid : t.ID = ID
    · simp [hid] at h
    · simp only [hid, if_false] at h ⊢
      rw [ih h]

theorem disableTaskLoop_not_found (ID : Int) (l : List task)
    (h : (disableTaskLoop ID l).2 = false) : (disableTaskLoop ID l).1 = l := by
  induction l with
  | nil => rfl
  | cons t rest ih =>
    unfold disableTaskLoop at h ⊢
    by_cases hid : t.ID = ID
    · simp [hid] at h
    · simp only [hid, if_false] at h ⊢
      rw [ih h]

theorem enableTaskLoop_at (l : List task) :
    ∀ (i : Nat) (t : task), l[i]? = some t → (∀ u ∈ l.take i, u.ID ≠ t.ID) →
      enableTaskLoop t.ID l = (l.set i { t with isEnabled := true }, true) := by
  induction l with
  | nil => intro i t h; simp at h
  | cons a rest ih =>
    intro i t h hfirst
    cases i with
    | zero =>
      simp only [List.getElem?_cons_zero, Option.some.injEq] at h
      subst h
      simp [enableTaskLoop]
    | succ j =>
      simp only [List.getElem?_cons_succ] at h
      have ha : a.ID ≠ t.ID := hfirst a (by simp)
      have hrest : ∀ u ∈ rest.take j, u.ID ≠ t.ID := by
        intro u hu
        exact hfirst u (by simp [hu])
      unfold enableTaskLoop
      simp [ha, ih j t h hrest]

theorem disableTaskLoop_at (l : List task) :
    ∀ (i : Nat) (t : task), l[i]? = some t → (∀ u ∈ l.take i, u.ID ≠ t.ID) →
      disableTaskLoop t.ID l = (l.set i { t with isEnabled := false }, true) := by
  induction l with
  | nil => intro i t h; simp at h
  | cons a rest ih =>
    intro i t h hfirst
    cases i with
    | zero =>
      simp only [List.getElem?_cons_zero, Option.some.injEq] at h
      subst h
      simp [disableTaskLoop]
    | succ j =>
      simp only [List.getElem?_cons_succ] at h
      have ha : a.ID ≠ t.ID := hfirst a (by simp)
      have hrest : ∀ u ∈ rest.take j, u.ID ≠ t.ID := by
        intro u hu
        exact hfirst u (by simp [hu])
      unfold disableTaskLoop
      simp [ha, ih j t h hrest]

theorem getTaskTimeElapsedLoop_at (l : List task) :
    ∀ (i : Nat) (t : task), l[i]? = some t → (∀ u ∈ l.take i, u.ID ≠ t.ID) →
      getTaskTimeElapsedLoop t.ID l = t.elapsedTime := by
  induction l with
  | nil => intro i t h; simp at h
  | cons a rest ih =>
    intro i t h hfirst
    cases i with
    | zero =>
      simp only [List.getElem?_cons_zero, Option.some.injEq] at h
      subst h
      simp [getTaskTimeElapsedLoop]
    | succ j =>
      simp only [List.getElem?_cons_succ] at h
      have ha : a.ID ≠ t.ID := hfirst a (by simp)
      have hrest : ∀ u ∈ rest.take j, u.ID ≠ t.ID := by
        intro u hu
        exact hfirst u (by simp [hu])
      unfold getTaskTimeElapsedLoop
      simp [ha, ih j t h hrest]

theorem getTaskTimeElapsedLoop_none (ID : Int) (l : List task)
    (h : ∀ t ∈ l, t.ID ≠ ID) : getTaskTimeElapsedLoop ID l = -1 := by
  induction l with
  | nil => rfl
  | cons a rest ih =>
    unfold getTaskTimeElapsedLoop
    have ha : a.ID ≠ ID := h a (by simp)
    rw [if_neg ha]
    exact ih (fun t ht => h t (by simp [ht]))

theorem getTaskTimeElapsedLoop_find (ID : Int) (l : List task) :
    getTaskTimeElapsedLoop ID l =
      match l.find? (fun t => decide (t.ID = ID)) with
      | some t => t.elapsedTime
      | none => -1 := by
  induction l with
  | nil => rfl
  | cons a rest ih =>
    unfold getTaskTimeElapsedLoop
    by_cases ha : a.ID = ID
    · simp [ha]
    · simp [ha, ih]

/-! ## Freeze on disable -/

theorem nodeAfterPass_disabled (timer : Int) (t : task) (h : t.isEnabled = false) :
    nodeAfterPass timer t = t := by
  unfold nodeAfterPass
  simp [h]

theorem nodeAfterPass_ID (timer : Int) (t : task) : (nodeAfterPass timer t).ID = t.ID := by
  unfold nodeAfterPass
  split_ifs <;> rfl

theorem scheduleTimerISR_disabled (s : Scheduler) (i : Nat) (t : task)
    (ht : s.tasks.front[i]? = some t) (hdis : t.isEnabled = false) :
    (scheduleTimerISR s).1.tasks.front[i]? = some t := by
  cases hg : s.processingTasks with
  | true => rw [scheduleTimerISR_guard_set s hg]; exact ht
  | false =>
    rw [scheduleTimerISR_guard_clear s hg]
    simp [ht, nodeAfterPass_disabled _ t hdis]

theorem scheduleTimerISR_ids (s : Scheduler) :
    (scheduleTimerISR s).1.tasks.front.map (fun t => t.ID) = s.tasks.front.map (fun t => t.ID) := by
  cases hg : s.processingTasks with
  | true => rw [scheduleTimerISR_guard_set s hg]
  | false =>
    rw [scheduleTimerISR_guard_clear s hg]
    simp [Function.comp_def, nodeAfterPass_ID]

theorem runPasses_disabled (n : Nat) :
    ∀ (s : Scheduler) (i : Nat) (t : task), s.tasks.front[i]? = some t → t.isEnabled = false →
      (runPasses n s).1.tasks.front[i]? = some t := by
  induction n with
  | zero => intro s i t ht _; exact ht
  | succ n ih =>
    intro s i t ht hdis
    exact ih _ i t (scheduleTimerISR_disabled s i t ht hdis) hdis

theorem runPasses_ids (n : Nat) :
    ∀ s : Scheduler,
      (runPasses n s).1.tasks.front.map (fun t => t.ID) = s.tasks.front.map (fun t => t.ID) := by
  induction n with
  | zero => intro s; rfl
  | succ n ih =>
    intro s
    exact (ih _).trans (scheduleTimerISR_ids s)

theorem first_of_ids {l l2 : List task} {i : Nat} {ID : Int}
    (hids : l2.map (fun t => t.ID) = l.map (fun t => t.ID))
    (hfirst : ∀ u ∈ l.take i, u.ID ≠ ID) : ∀ u ∈ l2.take i, u.ID ≠ ID := by
  intro u hu heq
  have h1 : u.ID ∈ (l2.take i).map (fun t => t.ID) := List.mem_map_of_mem _ hu
  rw [List.map_take, hids, ← List.map_take] at h1
  obtain ⟨v, hv, hvu⟩ := List.mem_map.mp h1
  exact hfirst v hv (hvu.trans heq)

/-- C7: freeze on disable. (1) A pass of `scheduleTimerISR` leaves every disabled node as it
is, `elapsedTime` included. (2) `enableTask` and `disableTask` leave the `elapsedTime` of every
node as it is. (3) A disabled node is still unchanged after any number of passes. (4) Hence, if
the node at position `i` is the first with its ID and has `elapsedTime = e`, then after
`disableTask`, any number `n` of passes and `enableTask`, that node is the original one with
`isEnabled = true`: its `elapsedTime` is still `e`, and it was disabled all the while. -/
theorem freeze_on_disable :
    (∀ (s : Scheduler) (i : Nat) (t : task), s.tasks.front[i]? = some t → t.isEnabled = false →
      (scheduleTimerISR s).1.tasks.front[i]? = some t)
    ∧ (∀ (s : Scheduler) (ID : Int),
        (enableTask ID s).1.tasks.front.map (fun t => t.elapsedTime)
            = s.tasks.front.map (fun t => t.elapsedTime)
        ∧ (disableTask ID s).1.tasks.front.map (fun t => t.elapsedTime)
            = s.tasks.front.map (fun t => t.elapsedTime))
    ∧ (∀ (s : Scheduler) (n i : Nat) (t : task), s.tasks.front[i]? = some t →
        t.isEnabled = false → (runPasses n s).1.tasks.front[i]? = some t)
    ∧ (∀ (s : Scheduler) (n i : Nat) (t : task), s.tasks.front[i]? = some t →
        (∀ u ∈ s.tasks.front.take i, u.ID ≠ t.ID) →
        (runPasses n (disableTask t.ID s).1).1.tasks.front[i]?
            = some { t with isEnabled := false }
        ∧ (enableTask t.ID (runPasses n (disableTask t.ID s).1).1).1.tasks.front[i]?
            = some { t with isEnabled := true }) := by
  refine ⟨scheduleTimerISR_disabled, ?_, ?_, ?_⟩
  · intro s ID
    exact ⟨enableTaskLoop_elapsed ID s.tasks.front, disableTaskLoop_elapsed ID s.tasks.front⟩
  · intro s n i t ht hdis
    exact runPasses_disabled n s i t ht hdis
  · intro s n i t ht hfirst
    have hlt : i < s.tasks.front.length := by
      rcases Nat.lt_or_ge i s.tasks.front.length with h | h
      · exact h
      · rw [List.getElem?_eq_none h] at ht
        exact Option.noConfusion ht
    have hd : (disableTask t.ID s).1.tasks.front[i]? = some { t with isEnabled := false } := by
      simp only [disableTask]
      rw [disableTaskLoop_at s.tasks.front i t ht hfirst]
      simp [hlt]
    have hp := runPasses_disabled n (disableTask t.ID s).1 i { t with isEnabled := false } hd rfl
    refine ⟨hp, ?_⟩
    have hids : (runPasses n (disableTask t.ID s).1).1.tasks.front.map (fun t => t.ID)
        = s.tasks.front.map (fun t => t.ID) :=
      (runPasses_ids n _).trans (disableTaskLoop_ids t.ID s.tasks.front)
    have hfirst2 := first_of_ids hids hfirst
    have hlt2 : i < (runPasses n (disableTask t.ID s).1).1.tasks.front.length := by
      have := congrArg List.length hids
      simp only [List.length_map] at this
      omega
    simp only [enableTask]
    have hen := enableTaskLoop_at (runPasses n (disableTask t.ID s).1).1.tasks.front i
      { t with isEnabled := false } hp hfirst2
    simp only at hen
    rw [hen]
    simp [hlt2]

/-- C7 at a concrete input: B of the scenario, one pass after registration (so `elapsedTime`
is 1), is disabled, five passes run, and it is enabled again: its `elapsedTime` is still 1. -/
theorem freeze_on_disable_witness :
    (runPasses 5 (disableTask 2 (scheduleTimerISR scenarioStart).1).1).1.tasks.front[1]?
        = some { scenarioB with elapsedTime := 1, isEnabled := false }
    ∧ (enableTask 2 (runPasses 5 (disableTask 2
          (scheduleTimerISR scenarioStart).1).1).1).1.tasks.front[1]?
        = some { scenarioB with elapsedTime := 1, isEnabled := true } :=
  freeze_on_disable.2.2.2 (scheduleTimerISR scenarioStart).1 5 1
    { scenarioB with elapsedTime := 1 } (by decide) (by decide)

/-! ## Return values and the target of a lookup -/

/-- C8: `enableTask(ID)` and `disableTask(ID)` return `true` exactly when some registered
descriptor has that ID, and when they return `false` the state is the one they were given. -/
theorem enable_disable_found_iff (s : Scheduler) (ID : Int) :
    ((enableTask ID s).2 = true ↔ ∃ t ∈ s.tasks.front, t.ID = ID)
    ∧ ((enableTask ID s).2 = false → (enableTask ID s).1 = s)
    ∧ ((disableTask ID s).2 = true ↔ ∃ t ∈ s.tasks.front, t.ID = ID)
    ∧ ((disableTask ID s).2 = false → (disableTask ID s).1 = s) := by
  refine ⟨enableTaskLoop_found_iff ID s.tasks.front, ?_,
    disableTaskLoop_found_iff ID s.tasks.front, ?_⟩
  · intro h
    simp only [enableTask] at h ⊢
    rw [enableTaskLoop_not_found ID s.tasks.front h]
  · intro h
    simp only [disableTask] at h ⊢
    rw [disableTaskLoop_not_found ID s.tasks.front h]

/-- C8 at a concrete input: no descriptor of the scenario has ID 9, so both calls return
`false` and change nothing; ID 2 is registered, so both return `true`. -/
theorem enable_disable_found_iff_witness :
    (enableTask 9 scenarioStart).1 = scenarioStart
    ∧ (disableTask 9 scenarioStart).1 = scenarioStart
    ∧ (enableTask 2 scenarioStart).2 = true
    ∧ (disableTask 2 scenarioStart).2 = true :=
  ⟨(enable_disable_found_iff scenarioStart 9).2.1 (by decide),
    (enable_disable_found_iff scenarioStart 9).2.2.2 (by decide),
    (enable_disable_found_iff scenarioStart 2).1.mpr ⟨scenarioB, by decide, by decide⟩,
    (enable_disable_found_iff scenarioStart 2).2.2.1.mpr ⟨scenarioB, by decide, by decide⟩⟩

/-- C9, refutation as stated: with `dupOther`, `dupFirst`, `dupLater` registered in this order
the registry is `dupOther`, `dupLater`, `dupFirst`, and the three lookups by ID 7 act on
`dupLater`, the descriptor registered last: `enableTask` enables it, `disableTask` finds it
already disabled and leaves `dupFirst` enabled, and after one pass `getTaskTimeElapsed` returns
its frozen 0 and not the 1 accumulated by `dupFirst`. -/
theorem lookup_first_inserted_counterexample :
    duplicateStart.tasks.front = [dupOther, dupLater, dupFirst]
    ∧ (enableTask 7 duplicateStart).1.tasks.front
        = [dupOther, { dupLater with isEnabled := true }, dupFirst]
    ∧ (enableTask 7 duplicateStart).1.tasks.front
        ≠ [dupOther, dupLater, { dupFirst with isEnabled := true }]
    ∧ (disableTask 7 duplicateStart).1.tasks.front = [dupOther, dupLater, dupFirst]
    ∧ (disableTask 7 duplicateStart).1.tasks.front
        ≠ [dupOther, dupLater, { dupFirst with isEnabled := false }]
    ∧ (scheduleTimerISR duplicateStart).1.tasks.front
        = [{ dupOther with elapsedTime := 1 }, dupLater, { dupFirst with elapsedTime := 1 }]
    ∧ (getTaskTimeElapsed 7 (scheduleTimerISR duplicateStart).1).2 = dupLater.elapsedTime
    ∧ (getTaskTimeElapsed 7 (scheduleTimerISR duplicateStart).1).2
        ≠ ({ dupFirst with elapsedTime := 1 } : task).elapsedTime := by
  decide

/-- C9 as amended: when the node at position `i` is the first in front-to-back registry order
with its ID (other nodes behind it may share the ID), `enableTask` and `disableTask` return
`true` and replace that node alone by itself with `isEnabled` set to `true`, respectively
`false`, and `getTaskTimeElapsed` changes nothing and returns that node's `elapsedTime`. -/
theorem lookup_acts_on_first_in_registry (s : Scheduler) (i : Nat) (t : task)
    (ht : s.tasks.front[i]? = some t) (hfirst : ∀ u ∈ s.tasks.front.take i, u.ID ≠ t.ID) :
    enableTask t.ID s
        = ({ s with tasks := { s.tasks with
              front := s.tasks.front.set i { t with isEnabled := true } } }, true)
    ∧ disableTask t.ID s
        = ({ s with tasks := { s.tasks with
              front := s.tasks.front.set i { t with isEnabled := false } } }, true)
    ∧ getTaskTimeElapsed t.ID s = (s, t.elapsedTime) := by
  refine ⟨?_, ?_, ?_⟩
  · simp only [enableTask]
    rw [enableTaskLoop_at s.tasks.front i t ht hfirst]
  · simp only [disableTask]
    rw [disableTaskLoop_at s.tasks.front i t ht hfirst]
  · simp only [getTaskTimeElapsed]
    rw [getTaskTimeElapsedLoop_at s.tasks.front i t ht hfirst]

/-- C9 as amended, at a concrete input: in `duplicateStart` the first node with ID 7 is
`dupLater` at position 1, and `dupFirst` behind it shares the ID. -/
theorem lookup_acts_on_first_in_registry_witness :
    enableTask 7 duplicateStart
        = ({ duplicateStart with tasks := { duplicateStart.tasks with
              front := duplicateStart.tasks.front.set 1 { dupLater with isEnabled := true } } },
            true)
    ∧ disableTask 7 duplicateStart
        = ({ duplicateStart with tasks := { duplicateStart.tasks with
              front := duplicateStart.tasks.front.set 1 { dupLater with isEnabled := false } } },
            true)
    ∧ getTaskTimeElapsed 7 duplicateStart = (duplicateStart, 0) :=
  lookup_acts_on_first_in_registry duplicateStart 1 dupLater (by decide) (by decide)

/-- C10: `getTaskTimeElapsed(ID)` returns the state it was given; its value is the
`elapsedTime` of the first descriptor, front to back, whose ID is `ID`, and `-1` when there is
none. The first match is given both as the result of `List.find?` and by its position. -/
theorem getTaskTimeElapsed_first_match (s : Scheduler) (ID : Int) :
    (getTaskTimeElapsed ID s).1 = s
    ∧ (getTaskTimeElapsed ID s).2 =
        (match s.tasks.front.find? (fun t => decide (t.ID = ID)) with
          | some t => t.elapsedTime
          | none => -1)
    ∧ (∀ (i : Nat) (t : task), s.tasks.front[i]? = some t → t.ID = ID →
        (∀ u ∈ s.tasks.front.take i, u.ID ≠ ID) → (getTaskTimeElapsed ID s).2 = t.elapsedTime)
    ∧ ((∀ t ∈ s.tasks.front, t.ID ≠ ID) → (getTaskTimeElapsed ID s).2 = -1) := by
  refine ⟨rfl, getTaskTimeElapsedLoop_find ID s.tasks.front, ?_, ?_⟩
  · intro i t ht hid hfirst
    subst hid
    exact getTaskTimeElapsedLoop_at s.tasks.front i t ht hfirst
  · intro h
    exact getTaskTimeElapsedLoop_none ID s.tasks.front h

/-- C10 at a concrete input: in the scenario after one pass, ID 2 is first found at position
1 with `elapsedTime = 1`, and ID 9 is not registered. -/
theorem getTaskTimeElapsed_first_match_witness :
    (getTaskTimeElapsed 2 (scheduleTimerISR scenarioStart).1).2 = 1
    ∧ (getTaskTimeElapsed 9 (scheduleTimerISR scenarioStart).1).2 = -1 :=
  ⟨(getTaskTimeElapsed_first_match (scheduleTimerISR scenarioStart).1 2).2.2.1 1
      { scenarioB with elapsedTime := 1 } (by decide) (by decide) (by decide),
    (getTaskTimeElapsed_first_match (scheduleTimerISR scenarioStart).1 9).2.2.2 (by decide)⟩

/-! ## Frame of `enableTask` and `disableTask` -/

theorem exists_first_with_ID (ID : Int) (l : List task) (h : ∃ t ∈ l, t.ID = ID) :
    ∃ (i : Nat) (t : task), l[i]? = some t ∧ t.ID = ID ∧ ∀ u ∈ l.take i, u.ID ≠ ID := by
  induction l with
  | nil => obtain ⟨t, ht, _⟩ := h; simp at ht
  | cons a rest ih =>
    by_cases ha : a.ID = ID
    · exact ⟨0, a, by simp, ha, by simp⟩
    · have hrest : ∃ t ∈ rest, t.ID = ID := by
        obtain ⟨t, ht, hid⟩ := h
        rcases List.mem_cons.mp ht with h1 | h1
        · subst h1; exact absurd hid ha
        · exact ⟨t, h1, hid⟩
      obtain ⟨i, t, hi, hid, hfirst⟩ := ih hrest
      refine ⟨i + 1, t, by simpa using hi, hid, ?_⟩
      intro u hu
      simp only [List.take_succ_cons, List.mem_cons] at hu
      rcases hu with h1 | h1
      · subst h1; exact ha
      · exact hfirst u h1

/-- C11: when some registered descriptor has the ID, there is a first position `i`, front to
back, holding a descriptor `t` with that ID; `enableTask` (`disableTask`) returns `true` and
the state in which the node at `i` is `t` with `isEnabled` set to `true` (`false`) and all else
is as before: `t`'s other fields, every other node, the length and order of the registry,
`tasks.count`, `currentPriority`, `processingTasks` and `TIMER1_PERIOD`. -/
theorem enable_disable_frame (s : Scheduler) (ID : Int) (h : ∃ t ∈ s.tasks.front, t.ID = ID) :
    ∃ (i : Nat) (t : task), s.tasks.front[i]? = some t ∧ t.ID = ID
      ∧ (∀ u ∈ s.tasks.front.take i, u.ID ≠ ID)
      ∧ enableTask ID s
          = ({ tasks := { count := s.tasks.count
                          front := s.tasks.front.set i
                            { ID := t.ID, period := t.period, elapsedTime := t.elapsedTime,
                              func := t.func, priority := t.priority, isEnabled := true } }
               currentPriority := s.currentPriority
               processingTasks := s.processingTasks
               TIMER1_PERIOD := s.TIMER1_PERIOD }, true)
      ∧ disableTask ID s
          = ({ tasks := { count := s.tasks.count
                          front := s.tasks.front.set i
                            { ID := t.ID, period := t.period, elapsedTime := t.elapsedTime,
                              func := t.func, priority := t.priority, isEnabled := false } }
               currentPriority := s.currentPriority
               processingTasks := s.processingTasks
               TIMER1_PERIOD := s.TIMER1_PERIOD }, true)
      ∧ (enableTask ID s).1.tasks.front.length = s.tasks.front.length
      ∧ (disableTask ID s).1.tasks.front.length = s.tasks.front.length
      ∧ (∀ j, j ≠ i → (enableTask ID s).1.tasks.front[j]? = s.tasks.front[j]?)
      ∧ (∀ j, j ≠ i → (disableTask ID s).1.tasks.front[j]? = s.tasks.front[j]?) := by
  obtain ⟨i, t, hi, hid, hfirst⟩ := exists_first_with_ID ID s.tasks.front h
  subst hid
  have he : enableTask t.ID s
      = ({ s with tasks := { s.tasks with
            front := s.tasks.front.set i { t with isEnabled := true } } }, true) := by
    simp only [enableTask]
    rw [enableTaskLoop_at s.tasks.front i t hi hfirst]
  have hd : disableTask t.ID s
      = ({ s with tasks := { s.tasks with
            front := s.tasks.front.set i { t with isEnabled := false } } }, true) := by
    simp only [disableTask]
    rw [disableTaskLoop_at s.tasks.front i t hi hfirst]
  refine ⟨i, t, hi, rfl, hfirst, he, hd, ?_, ?_, ?_, ?_⟩
  · rw [he]; simp
  · rw [hd]; simp
  · intro j hj
    rw [he]
    simp [List.getElem?_set, Ne.symm hj]
  · intro j hj
    rw [hd]
    simp [List.getElem?_set, Ne.symm hj]

/-- C11 at a concrete input: ID 7 in `duplicateStart`, where two nodes carry it. -/
theorem enable_disable_frame_witness :
    ∃ (i : Nat) (t : task), duplicateStart.tasks.front[i]? = some t ∧ t.ID = 7
      ∧ (∀ u ∈ duplicateStart.tasks.front.take i, u.ID ≠ 7)
      ∧ enableTask 7 duplicateStart
          = ({ tasks := { count := duplicateStart.tasks.count
                          front := duplicateStart.tasks.front.set i
                            { ID := t.ID, period := t.period, elapsedTime := t.elapsedTime,
                              func := t.func, priority := t.priority, isEnabled := true } }
               currentPriority := duplicateStart.currentPriority
               processingTasks := duplicateStart.processingTasks
               TIMER1_PERIOD := duplicateStart.TIMER1_PERIOD }, true) :=
  have h := enable_disable_frame duplicateStart 7 ⟨dupFirst, by decide, by decide⟩
  h.elim fun i hi => hi.elim fun t ht => ⟨i, t, ht.1, ht.2.1, ht.2.2.1, ht.2.2.2.1⟩

/-! ## One pass, node by node -/

/-- C12, refutation as stated: with tick period 2 and the guard clear, the enabled descriptor
with `elapsedTime = 2147483646 < period = 2147483647` does not end the pass with
`elapsedTime + 2 = 2147483648`, which no `long` can hold, but with `-2147483648`. -/
theorem pass_adds_tick_counterexample :
    overflowStart.processingTasks = false
    ∧ overflowStart.tasks.front = [overflowTask]
    ∧ overflowTask.isEnabled = true
    ∧ overflowTask.elapsedTime < overflowTask.period
    ∧ (scheduleTimerISR overflowStart).1.tasks.front
        = [{ overflowTask with elapsedTime := -2147483648 }]
    ∧ (scheduleTimerISR overflowStart).1.tasks.front
        ≠ [{ overflowTask with
              elapsedTime := overflowTask.elapsedTime + overflowStart.TIMER1_PERIOD }] := by
  decide

/-- C12 as amended: with the guard clear and the tick period `T` a value of type `long`, one
pass turns each node `t` into: `t` with `elapsedTime = T` when `t` is enabled and
`elapsedTime >= period`; `t` with `elapsedTime` the 32-bit sum of `elapsedTime` and `T` when
`t` is enabled and `elapsedTime < period`, which is `elapsedTime + T` whenever that lies in the
range of `long`; `t` itself when disabled. Nothing else of a node changes, nor the number and
order of the nodes, `tasks.count` or `TIMER1_PERIOD`. -/
theorem pass_updates_each_node (s : Scheduler) (hg : s.processingTasks = false)
    (hlo : LONG_MIN ≤ s.TIMER1_PERIOD) (hhi : s.TIMER1_PERIOD ≤ LONG_MAX) :
    (scheduleTimerISR s).1.tasks.front.length = s.tasks.front.length
    ∧ (scheduleTimerISR s).1.tasks.count = s.tasks.count
    ∧ (scheduleTimerISR s).1.TIMER1_PERIOD = s.TIMER1_PERIOD
    ∧ ∀ (i : Nat) (t : task), s.tasks.front[i]? = some t →
        (t.isEnabled = true → t.elapsedTime ≥ t.period →
          (scheduleTimerISR s).1.tasks.front[i]?
            = some { t with elapsedTime := s.TIMER1_PERIOD })
        ∧ (t.isEnabled = true → t.elapsedTime < t.period →
          (scheduleTimerISR s).1.tasks.front[i]?
            = some { t with elapsedTime := wrapLong (t.elapsedTime + s.TIMER1_PERIOD) })
        ∧ (t.isEnabled = true → t.elapsedTime < t.period →
            LONG_MIN ≤ t.elapsedTime + s.TIMER1_PERIOD →
            t.elapsedTime + s.TIMER1_PERIOD ≤ LONG_MAX →
          (scheduleTimerISR s).1.tasks.front[i]?
            = some { t with elapsedTime := t.elapsedTime + s.TIMER1_PERIOD })
        ∧ (t.isEnabled = false → (scheduleTimerISR s).1.tasks.front[i]? = some t) := by
  rw [scheduleTimerISR_guard_clear s hg]
  refine ⟨by simp, rfl, rfl, ?_⟩
  intro i t ht
  have hmap : (s.tasks.front.map (nodeAfterPass s.TIMER1_PERIOD))[i]?
      = some (nodeAfterPass s.TIMER1_PERIOD t) := by
    simp [ht]
  refine ⟨?_, ?_, ?_, ?_⟩
  · intro hen hge
    show (s.tasks.front.map (nodeAfterPass s.TIMER1_PERIOD))[i]? = _
    rw [hmap]
    unfold nodeAfterPass
    rw [if_pos hen, if_pos hge, wrapLong_of_inRange _ (by omega) (by omega)]
    simp
  · intro hen hlt
    show (s.tasks.front.map (nodeAfterPass s.TIMER1_PERIOD))[i]? = _
    rw [hmap]
    unfold nodeAfterPass
    rw [if_pos hen, if_neg (by omega)]
  · intro hen hlt h1 h2
    show (s.tasks.front.map (nodeAfterPass s.TIMER1_PERIOD))[i]? = _
    rw [hmap]
    unfold nodeAfterPass
    rw [if_pos hen, if_neg (by omega), wrapLong_of_inRange _ h1 h2]
  · intro hdis
    show (s.tasks.front.map (nodeAfterPass s.TIMER1_PERIOD))[i]? = _
    rw [hmap, nodeAfterPass_disabled _ t hdis]

/-- C12 as amended, at a concrete input: the scenario after three passes (A has
`elapsedTime = 3 = period`, B has `elapsedTime = 1 = period`), tick period 1. -/
theorem pass_updates_each_node_witness :
    (scheduleTimerISR (runPasses 3 scenarioStart).1).1.tasks.front.length
        = (runPasses 3 scenarioStart).1.tasks.front.length
    ∧ (scheduleTimerISR (runPasses 3 scenarioStart).1).1.tasks.front[0]?
        = some { scenarioA with elapsedTime := 1 } :=
  have h := pass_updates_each_node (runPasses 3 scenarioStart).1 (by decide) (by decide)
    (by decide)
  ⟨h.1, (h.2.2.2 0 { scenarioA with elapsedTime := 3 } (by decide)).1 (by decide) (by decide)⟩

/-! ## The calls of one pass -/

theorem dueCalls_eq_enumFrom (l : List task) :
    ∀ i : Nat, dueCalls i l
      = ((l.enumFrom i).filter (fun p => p.2.isEnabled && decide (p.2.elapsedTime ≥ p.2.period))).map
          (fun p => ({ node := p.1, func := p.2.func } : call)) := by
  induction l with
  | nil => intro i; rfl
  | cons t rest ih =>
    intro i
    unfold dueCalls
    by_cases hd : due t = true
    · have hd2 : (t.isEnabled && decide (t.elapsedTime ≥ t.period)) = true := hd
      simp only [hd, if_true, List.enumFrom_cons, List.filter_cons, hd2, List.map_cons, ih]
    · have hd2 : ¬ (t.isEnabled && decide (t.elapsedTime ≥ t.period)) = true := hd
      simp only [hd, List.enumFrom_cons, List.filter_cons, hd2, ih]
      simp

theorem dueCalls_funcs (l : List task) :
    ∀ i : Nat, calledFuncs (dueCalls i l)
      = (l.filter (fun t => t.isEnabled && decide (t.elapsedTime ≥ t.period))).map
          (fun t => t.func) := by
  induction l with
  | nil => intro i; rfl
  | cons t rest ih =>
    intro i
    unfold dueCalls
    by_cases hd : due t = true
    · have hd2 : (t.isEnabled && decide (t.elapsedTime ≥ t.period)) = true := hd
      rw [if_pos hd, List.filter_cons]
      simp only [hd2, if_true, List.map_cons, ← ih (i + 1)]
      rfl
    · have hd2 : (t.isEnabled && decide (t.elapsedTime ≥ t.period)) = false := by
        simpa [due] using hd
      rw [if_neg hd, List.filter_cons]
      simp only [hd2, Bool.false_eq_true, if_false]
      exact ih (i + 1)

theorem dueCalls_nodes_increasing (l : List task) :
    ∀ i : Nat, ((dueCalls i l).map (fun c => c.node)).Pairwise (fun a b => a < b) := by
  induction l with
  | nil => intro i; simp [dueCalls]
  | cons t rest ih =>
    intro i
    unfold dueCalls
    by_cases hd : due t = true
    · simp only [hd, if_true, List.map_cons, List.pairwise_cons]
      refine ⟨?_, ih (i + 1)⟩
      intro b hb
      obtain ⟨c, hc, hcb⟩ := List.mem_map.mp hb
      obtain ⟨n, u, _, _, hcn⟩ := mem_dueCalls rest (i + 1) c hc
      rw [← hcb, hcn]
      simp only
      omega
    · simp only [hd]
      exact ih (i + 1)

theorem mem_dueCalls_of_due (l : List task) :
    ∀ (i n : Nat) (t : task), l[n]? = some t → due t = true →
      ({ node := i + n, func := t.func } : call) ∈ dueCalls i l := by
  induction l with
  | nil => intro i n t h; simp at h
  | cons a rest ih =>
    intro i n t h hd
    cases n with
    | zero =>
      simp only [List.getElem?_cons_zero, Option.some.injEq] at h
      subst h
      unfold dueCalls
      simp [hd]
    | succ m =>
      simp only [List.getElem?_cons_succ] at h
      have hm := ih (i + 1) m t h hd
      have hidx : i + (m + 1) = i + 1 + m := by omega
      rw [hidx]
      unfold dueCalls
      by_cases ha : due a = true
      · rw [if_pos ha]; exact List.mem_cons_of_mem _ hm
      · rw [if_neg ha]; exact hm

/-- C13: with the guard clear, the calls of one pass are exactly those for the nodes that
are enabled with `elapsedTime >= period` when the pass starts, in front-to-back order: the
list of calls is the position-labelled registry filtered by that test; the functions called
are those of the filtered registry, in order; the positions called for strictly increase, so
no node is called for twice; and a call for node `i` is made exactly when node `i` passes the
test. -/
theorem pass_calls_exactly_due (s : Scheduler) (hg : s.processingTasks = false) :
    (scheduleTimerISR s).2
        = ((s.tasks.front.enum).filter
            (fun p => p.2.isEnabled && decide (p.2.elapsedTime ≥ p.2.period))).map
            (fun p => ({ node := p.1, func := p.2.func } : call))
    ∧ calledFuncs (scheduleTimerISR s).2
        = (s.tasks.front.filter (fun t => t.isEnabled && decide (t.elapsedTime ≥ t.period))).map
            (fun t => t.func)
    ∧ ((scheduleTimerISR s).2.map (fun c => c.node)).Pairwise (fun a b => a < b)
    ∧ (∀ (i : Nat) (t : task), s.tasks.front[i]? = some t →
        (({ node := i, func := t.func } : call) ∈ (scheduleTimerISR s).2
          ↔ (t.isEnabled = true ∧ t.elapsedTime ≥ t.period)))
    ∧ (∀ c ∈ (scheduleTimerISR s).2, ∃ t, s.tasks.front[c.node]? = some t ∧ c.func = t.func
        ∧ t.isEnabled = true ∧ t.elapsedTime ≥ t.period) := by
  rw [scheduleTimerISR_guard_clear s hg]
  refine ⟨dueCalls_eq_enumFrom s.tasks.front 0, dueCalls_funcs s.tasks.front 0,
    dueCalls_nodes_increasing s.tasks.front 0, ?_, ?_⟩
  · intro i t ht
    constructor
    · intro hc
      obtain ⟨n, u, hn, hu, hcu⟩ := mem_dueCalls s.tasks.front 0 _ hc
      have hni : i = n := by
        have := congrArg call.node hcu
        simpa using this
      rw [← hni, ht] at hn
      have htu : t = u := Option.some.inj hn
      rw [← htu] at hu
      unfold due at hu
      simpa using hu
    · intro hdue
      have hd : due t = true := by
        unfold due
        simpa using hdue
      have := mem_dueCalls_of_due s.tasks.front 0 i t ht hd
      simpa using this
  · intro c hc
    obtain ⟨n, u, hn, hu, hcu⟩ := mem_dueCalls s.tasks.front 0 c hc
    refine ⟨u, ?_, ?_, ?_⟩
    · rw [hcu]; simpa using hn
    · rw [hcu]
    · unfold due at hu
      simpa using hu

/-- C13 at a concrete input: the scenario after three passes; both A and B are due, and the
fourth pass calls A (node 0), then B (node 1). -/
theorem pass_calls_exactly_due_witness :
    (scheduleTimerISR (runPasses 3 scenarioStart).1).2
        = (((runPasses 3 scenarioStart).1.tasks.front.enum).filter
            (fun p => p.2.isEnabled && decide (p.2.elapsedTime ≥ p.2.period))).map
            (fun p => ({ node := p.1, func := p.2.func } : call))
    ∧ calledFuncs (scheduleTimerISR (runPasses 3 scenarioStart).1).2
        = ((runPasses 3 scenarioStart).1.tasks.front.filter
            (fun t => t.isEnabled && decide (t.elapsedTime ≥ t.period))).map (fun t => t.func) :=
  have h := pass_calls_exactly_due (runPasses 3 scenarioStart).1 (by decide)
  ⟨h.1, h.2.1⟩

/-! ## States reachable from `initScheduler` -/

theorem applyOp_guard (op : Op) (s : Scheduler) (h : s.processingTasks = false) :
    (applyOp op s).processingTasks = false := by
  cases op with
  | scheduleTask t => exact h
  | enableTask ID => exact h
  | disableTask ID => exact h
  | getTaskTimeElapsed ID => exact h
  | scheduleTimerISR =>
    show (scheduleTimerISR s).1.processingTasks = false
    rw [scheduleTimerISR_guard_clear s h]

theorem applyOps_guard (ops : List Op) :
    ∀ s : Scheduler, s.processingTasks = false → (applyOps ops s).processingTasks = false := by
  induction ops with
  | nil => intro s h; exact h
  | cons op rest ih =>
    intro s h
    exact ih (applyOp op s) (applyOp_guard op s h)

/-- C14: the guard is always released. A pass started with `processingTasks` clear ends with
it clear; hence in every state reached from `initScheduler` by calls made one after another
(`scheduleTask`, `enableTask`, `disableTask`, `getTaskTimeElapsed`, `scheduleTimerISR`)
`processingTasks` is `false`, and a tick delivered in such a state is not dropped:
`scheduleTimerISR` takes the branch that walks the registry. -/
theorem guard_always_released :
    (∀ s : Scheduler, s.processingTasks = false →
      (scheduleTimerISR s).1.processingTasks = false)
    ∧ (∀ (period : Int) (s0 : Scheduler) (ops : List Op),
        (applyOps ops (initScheduler period s0)).processingTasks = false)
    ∧ (∀ (period : Int) (s0 : Scheduler) (ops : List Op),
        scheduleTimerISR (applyOps ops (initScheduler period s0))
          = ({ (applyOps ops (initScheduler period s0)) with
                tasks := { (applyOps ops (initScheduler period s0)).tasks with
                  front := (dispatchLoop (applyOps ops (initScheduler period s0)).TIMER1_PERIOD 0
                    (applyOps ops (initScheduler period s0)).tasks.front
                    (applyOps ops (initScheduler period s0)).currentPriority).1 }
                currentPriority :=
                  (dispatchLoop (applyOps ops (initScheduler period s0)).TIMER1_PERIOD 0
                    (applyOps ops (initScheduler period s0)).tasks.front
                    (applyOps ops (initScheduler period s0)).currentPriority).2.1
                processingTasks := false },
              (dispatchLoop (applyOps ops (initScheduler period s0)).TIMER1_PERIOD 0
                (applyOps ops (initScheduler period s0)).tasks.front
                (applyOps ops (initScheduler period s0)).currentPriority).2.2)) := by
  refine ⟨?_, ?_, ?_⟩
  · intro s h
    rw [scheduleTimerISR_guard_clear s h]
  · intro period s0 ops
    exact applyOps_guard ops (initScheduler period s0) rfl
  · intro period s0 ops
    have h := applyOps_guard ops (initScheduler period s0) rfl
    unfold scheduleTimerISR
    simp [h]

/-- C14 at a concrete input: the scenario state, which has the guard clear, keeps it clear
over a pass. -/
theorem guard_always_released_witness :
    (scheduleTimerISR scenarioStart).1.processingTasks = false :=
  guard_always_released.1 scenarioStart (by decide)

/-! ## `currentPriority` -/

theorem visitNode_priority (timer : Int) (i : Nat) (t : task) (cp : taskPriority) :
    (visitNode timer i t cp).2.1 = if due t then t.priority else cp := by
  unfold visitNode due
  by_cases h1 : t.isEnabled = true <;> by_cases h2 : t.elapsedTime ≥ t.period <;> simp [h1, h2]

theorem dispatchLoop_priority (timer : Int) (l : List task) :
    ∀ (i : Nat) (cp : taskPriority),
      (dueCalls i l = [] ∧ (dispatchLoop timer i l cp).2.1 = cp)
      ∨ (∃ (n : Nat) (t : task), l[n]? = some t
          ∧ (dueCalls i l).getLast? = some { node := i + n, func := t.func }
          ∧ (dispatchLoop timer i l cp).2.1 = t.priority) := by
  induction l with
  | nil => intro i cp; exact Or.inl ⟨rfl, rfl⟩
  | cons t rest ih =>
    intro i cp
    have hstep : (dispatchLoop timer i (t :: rest) cp).2.1
        = (dispatchLoop timer (i + 1) rest (if due t then t.priority else cp)).2.1 := by
      simp only [dispatchLoop, visitNode_priority]
    rw [hstep]
    rcases ih (i + 1) (if due t then t.priority else cp) with ⟨hnil, hcp⟩ | ⟨n, u, hn, hlast, hcp⟩
    · by_cases hd : due t = true
      · refine Or.inr ⟨0, t, by simp, ?_, ?_⟩
        · unfold dueCalls
          rw [if_pos hd, hnil]
          rfl
        · rw [hcp, if_pos hd]
      · refine Or.inl ⟨?_, ?_⟩
        · unfold dueCalls
          rw [if_neg hd, hnil]
        · rw [hcp, if_neg hd]
    · refine Or.inr ⟨n + 1, u, by simpa using hn, ?_, hcp⟩
      have hidx : i + (n + 1) = i + 1 + n := by omega
      rw [hidx]
      unfold dueCalls
      by_cases hd : due t = true
      · rw [if_pos hd, List.getLast?_cons, hlast]
        rfl
      · rw [if_neg hd, hlast]

/-- C15: after a pass started with the guard clear, `currentPriority` is unchanged when the
pass made no call, and otherwise is the priority of the node for which the last call of the
pass was made; `scheduleTask`, `enableTask`, `disableTask` and `getTaskTimeElapsed` leave
`currentPriority` as it is. -/
theorem currentPriority_after_pass :
    (∀ s : Scheduler, s.processingTasks = false →
      ((scheduleTimerISR s).2 = [] →
        (scheduleTimerISR s).1.currentPriority = s.currentPriority)
      ∧ (∀ c : call, (scheduleTimerISR s).2.getLast? = some c →
          ∃ t : task, s.tasks.front[c.node]? = some t ∧ c.func = t.func
            ∧ (scheduleTimerISR s).1.currentPriority = t.priority))
    ∧ (∀ (s : Scheduler) (t : task), (scheduleTask t s).currentPriority = s.currentPriority)
    ∧ (∀ (s : Scheduler) (ID : Int),
        (enableTask ID s).1.currentPriority = s.currentPriority
        ∧ (disableTask ID s).1.currentPriority = s.currentPriority
        ∧ (getTaskTimeElapsed ID s).1.currentPriority = s.currentPriority) := by
  refine ⟨?_, fun _ _ => rfl, fun _ _ => ⟨rfl, rfl, rfl⟩⟩
  intro s hg
  rw [scheduleTimerISR_guard_clear s hg]
  rcases dispatchLoop_priority s.TIMER1_PERIOD s.tasks.front 0 s.currentPriority with
    ⟨hnil, hcp⟩ | ⟨n, u, hn, hlast, hcp⟩
  · refine ⟨fun _ => hcp, ?_⟩
    intro c hc
    simp only [hnil] at hc
    exact Option.noConfusion hc
  · refine ⟨?_, ?_⟩
    · intro hnil
      simp only at hnil
      rw [hnil] at hlast
      exact Option.noConfusion hlast
    · intro c hc
      simp only at hc
      rw [hlast] at hc
      have hcu := (Option.some.inj hc).symm
      refine ⟨u, ?_, ?_, hcp⟩
      · rw [hcu]; simpa using hn
      · rw [hcu]

/-- C15 at a concrete input: the fourth pass of the scenario calls A and then B, and
`currentPriority` ends as B's priority, `PRIOR_LOW`. -/
theorem currentPriority_after_pass_witness :
    ∃ t : task, (runPasses 3 scenarioStart).1.tasks.front[1]? = some t ∧ 200 = t.func
      ∧ (scheduleTimerISR (runPasses 3 scenarioStart).1).1.currentPriority = t.priority :=
  (currentPriority_after_pass.1 (runPasses 3 scenarioStart).1 (by decide)).2
    { node := 1, func := 200 } (by decide)

/-! ## Where `scheduleTask` links the new node in -/

theorem insertAfterCursor_length (node : task) (rest : List task) :
    ∀ cursor : task, (insertAfterCursor node cursor rest).length = rest.length + 2 := by
  induction rest with
  | nil => intro cursor; rfl
  | cons nxt r ih =>
    intro cursor
    unfold insertAfterCursor
    by_cases h : node.priority.rank ≥ cursor.priority.rank
    · rw [if_pos h]
      simp [ih nxt]
    · rw [if_neg h]
      simp

theorem insertAfterCursor_head (node cursor : task) (rest : List task) :
    (insertAfterCursor node cursor rest).head? = some cursor := by
  cases rest with
  | nil => rfl
  | cons nxt r =>
    unfold insertAfterCursor
    by_cases h : node.priority.rank ≥ cursor.priority.rank
    · rw [if_pos h]; rfl
    · rw [if_neg h]; rfl

theorem insertAfterCursor_after_greater (node u : task) (post : List task) (pre : List task) :
    ∀ (cursor : task) (rest : List task), cursor :: rest = pre ++ u :: post →
      (∀ v ∈ pre, v.priority.rank ≤ node.priority.rank) →
      node.priority.rank < u.priority.rank →
      insertAfterCursor node cursor rest = pre ++ u :: node :: post := by
  induction pre with
  | nil =>
    intro cursor rest heq _ hlt
    simp only [List.nil_append, List.cons.injEq] at heq
    obtain ⟨hc, hr⟩ := heq
    subst hc
    subst hr
    cases rest with
    | nil => rfl
    | cons nxt r =>
      unfold insertAfterCursor
      rw [if_neg (by omega)]
      rfl
  | cons a pre2 ih =>
    intro cursor rest heq hpre hlt
    simp only [List.cons_append, List.cons.injEq] at heq
    obtain ⟨hc, hr⟩ := heq
    subst hc
    have ha : cursor.priority.rank ≤ node.priority.rank := hpre cursor (by simp)
    cases rest with
    | nil =>
      exfalso
      have := congrArg List.length hr
      simp at this
      omega
    | cons nxt r =>
      unfold insertAfterCursor
      rw [if_pos ha]
      rw [ih nxt r hr (fun v hv => hpre v (by simp [hv])) hlt]
      rfl

theorem insertAfterCursor_at_tail (node : task) (rest : List task) :
    ∀ cursor : task, (∀ v ∈ cursor :: rest, v.priority.rank ≤ node.priority.rank) →
      insertAfterCursor node cursor rest = cursor :: rest ++ [node] := by
  induction rest with
  | nil => intro cursor _; rfl
  | cons nxt r ih =>
    intro cursor h
    have hc : cursor.priority.rank ≤ node.priority.rank := h cursor (by simp)
    unfold insertAfterCursor
    rw [if_pos hc, ih nxt (fun v hv => h v (List.mem_cons_of_mem _ hv))]
    rfl

theorem insertAfterCursor_position (node : task) (rest : List task) :
    ∀ cursor : task, insertAfterCursor node cursor rest
      = (cursor :: rest).take (insertPosition node (cursor :: rest))
          ++ node :: (cursor :: rest).drop (insertPosition node (cursor :: rest)) := by
  induction rest with
  | nil =>
    intro cursor
    have hk : insertPosition node [cursor] = 1 := by
      unfold insertPosition
      simp
    rw [hk]
    rfl
  | cons nxt r ih =>
    intro cursor
    unfold insertAfterCursor
    by_cases h : node.priority.rank ≥ cursor.priority.rank
    · have hp : decide (node.priority.rank < cursor.priority.rank) = false := by
        simp; omega
      have hk : insertPosition node (cursor :: nxt :: r) = insertPosition node (nxt :: r) + 1 := by
        unfold insertPosition
        rw [List.findIdx_cons, hp]
        simp only [cond_false, List.length_cons]
        omega
      rw [if_pos h, hk, ih nxt]
      rfl
    · have hp : decide (node.priority.rank < cursor.priority.rank) = true := by
        simp; omega
      have hk : insertPosition node (cursor :: nxt :: r) = 1 := by
        unfold insertPosition
        rw [List.findIdx_cons, hp]
        simp
      rw [if_neg h, hk]
      rfl

/-- C17: exact insertion position of `scheduleTask`. On an empty registry the new descriptor
becomes the sole element. On a non-empty registry the front node stays the front node; if
`u` is the first node, front to back, whose priority value is strictly greater than the new
one's, the new node is linked in immediately after `u`; if no node has a strictly greater
priority value, it is linked in after the tail. In every case the result is the old registry
with the new node put in at `insertPosition`, so the existing nodes keep their contents and
relative order. -/
theorem scheduleTask_insertion_position (t : task) (s : Scheduler) :
    (s.tasks.front = [] → (scheduleTask t s).tasks.front = [t])
    ∧ (s.tasks.front ≠ [] → (scheduleTask t s).tasks.front.head? = s.tasks.front.head?)
    ∧ (∀ (pre : List task) (u : task) (post : List task), s.tasks.front = pre ++ u :: post →
        (∀ v ∈ pre, v.priority.rank ≤ t.priority.rank) →
        t.priority.rank < u.priority.rank →
        (scheduleTask t s).tasks.front = pre ++ u :: t :: post)
    ∧ ((∀ v ∈ s.tasks.front, v.priority.rank ≤ t.priority.rank) →
        (scheduleTask t s).tasks.front = s.tasks.front ++ [t])
    ∧ (scheduleTask t s).tasks.front
        = s.tasks.front.take (insertPosition t s.tasks.front)
            ++ t :: s.tasks.front.drop (insertPosition t s.tasks.front) := by
  unfold scheduleTask
  cases hl : s.tasks.front with
  | nil =>
    refine ⟨fun _ => rfl, fun h => absurd rfl h, ?_, fun _ => rfl, ?_⟩
    · intro pre u post heq
      exfalso
      have := congrArg List.length heq
      simp at this
      omega
    · simp [insertPosition]
  | cons c rest =>
    refine ⟨fun h => List.noConfusion h, fun _ => ?_, ?_, ?_, ?_⟩
    · exact insertAfterCursor_head t c rest
    · intro pre u post heq hpre hlt
      exact insertAfterCursor_after_greater t u post pre c rest heq hpre hlt
    · intro h
      exact insertAfterCursor_at_tail t rest c h
    · exact insertAfterCursor_position t rest c

/-- C17 at a concrete input: on the registry A (`PRIOR_HIGH`), B (`PRIOR_LOW`) of the
scenario, a `PRIOR_MEDIUM` descriptor is linked in after B, the first node with a greater
priority value. -/
theorem scheduleTask_insertion_position_witness :
    (scheduleTask (createTask 3 5 300 PRIOR_MEDIUM true) scenarioStart).tasks.front
      = [scenarioA] ++ scenarioB :: createTask 3 5 300 PRIOR_MEDIUM true :: [] :=
  (scheduleTask_insertion_position (createTask 3 5 300 PRIOR_MEDIUM true) scenarioStart).2.2.1
    [scenarioA] scenarioB [] (by decide) (by decide) (by decide)

/-! ## Registration in non-decreasing priority order -/

theorem scheduleAll_concat (ts : List task) (t : task) (s : Scheduler) :
    scheduleAll (ts ++ [t]) s = scheduleTask t (scheduleAll ts s) := by
  unfold scheduleAll
  rw [List.foldl_append]
  rfl

theorem scheduleAll_sorted (ts : List task) :
    sortedByRank ts → ∀ s : Scheduler, s.tasks.front = [] →
      (scheduleAll ts s).tasks.front = ts := by
  induction ts using List.reverseRecOn with
  | nil => intro _ s hs; exact hs
  | append_singleton ts t ih =>
    intro hsorted s hs
    unfold sortedByRank at hsorted
    rw [List.pairwise_append] at hsorted
    obtain ⟨h1, _, h3⟩ := hsorted
    have hprev := ih h1 s hs
    rw [scheduleAll_concat]
    have hle : ∀ v ∈ (scheduleAll ts s).tasks.front,
        v.priority.rank ≤ t.priority.rank := by
      intro v hv
      rw [hprev] at hv
      exact h3 v hv t (by simp)
    unfold scheduleTask
    cases hl : (scheduleAll ts s).tasks.front with
    | nil =>
      rw [hl] at hprev
      rw [← hprev]
      rfl
    | cons c rest =>
      rw [hl] at hle hprev
      show insertAfterCursor t c rest = ts ++ [t]
      rw [insertAfterCursor_at_tail t rest c hle, ← hprev]

/-- C18: if the descriptors `ts` are registered after `initScheduler` in non-decreasing order
of priority value, then after each registration the registry is the sequence registered so
far (every `scheduleTask` appends at the tail); in the end the registry is `ts` itself, hence
sorted by non-decreasing priority value with equal-priority descriptors in registration
order. -/
theorem scheduleAll_sorted_is_identity (period : Int) (s0 : Scheduler) (ts : List task)
    (h : sortedByRank ts) :
    (scheduleAll ts (initScheduler period s0)).tasks.front = ts
    ∧ sortedByRank (scheduleAll ts (initScheduler period s0)).tasks.front
    ∧ ∀ n : Nat, (scheduleAll (ts.take n) (initScheduler period s0)).tasks.front = ts.take n := by
  have hmain := scheduleAll_sorted ts h (initScheduler period s0) rfl
  refine ⟨hmain, ?_, ?_⟩
  · rw [hmain]; exact h
  · intro n
    have hn : sortedByRank (ts.take n) := List.Pairwise.sublist (List.take_sublist n ts) h
    exact scheduleAll_sorted (ts.take n) hn (initScheduler period s0) rfl

/-- C18 at a concrete input: priorities HIGH, MEDIUM, MEDIUM, VERY_LOW registered in this
order. -/
theorem scheduleAll_sorted_is_identity_witness :
    (scheduleAll [createTask 1 5 100 PRIOR_HIGH true, createTask 2 5 200 PRIOR_MEDIUM true,
        createTask 3 5 300 PRIOR_MEDIUM true, createTask 4 5 400 PRIOR_VERY_LOW true]
        (initScheduler 1 startupGlobals)).tasks.front
      = [createTask 1 5 100 PRIOR_HIGH true, createTask 2 5 200 PRIOR_MEDIUM true,
          createTask 3 5 300 PRIOR_MEDIUM true, createTask 4 5 400 PRIOR_VERY_LOW true] :=
  (scheduleAll_sorted_is_identity 1 startupGlobals
    [createTask 1 5 100 PRIOR_HIGH true, createTask 2 5 200 PRIOR_MEDIUM true,
      createTask 3 5 300 PRIOR_MEDIUM true, createTask 4 5 400 PRIOR_VERY_LOW true]
    (by decide)).1

/-! ## `tasks.count` -/

theorem scheduleTask_length (t : task) (s : Scheduler) :
    (scheduleTask t s).tasks.front.length = s.tasks.front.length + 1 := by
  unfold scheduleTask
  cases hl : s.tasks.front with
  | nil => rfl
  | cons c rest =>
    show (insertAfterCursor t c rest).length = (c :: rest).length + 1
    rw [insertAfterCursor_length]
    rfl

theorem enableTask_length (ID : Int) (s : Scheduler) :
    (enableTask ID s).1.tasks.front.length = s.tasks.front.length := by
  have := congrArg List.length (enableTaskLoop_ids ID s.tasks.front)
  simpa [enableTask] using this

theorem disableTask_length (ID : Int) (s : Scheduler) :
    (disableTask ID s).1.tasks.front.length = s.tasks.front.length := by
  have := congrArg List.length (disableTaskLoop_ids ID s.tasks.front)
  simpa [disableTask] using this

theorem scheduleTimerISR_length (s : Scheduler) :
    (scheduleTimerISR s).1.tasks.front.length = s.tasks.front.length := by
  have := congrArg List.length (scheduleTimerISR_ids s)
  simpa using this

theorem scheduleTimerISR_count (s : Scheduler) :
    (scheduleTimerISR s).1.tasks.count = s.tasks.count := by
  cases hg : s.processingTasks with
  | true => rw [scheduleTimerISR_guard_set s hg]
  | false => rw [scheduleTimerISR_guard_clear s hg]

theorem applyOp_count (op : Op) (s : Scheduler)
    (h : s.tasks.count = (s.tasks.front.length : Int)) :
    (applyOp op s).tasks.count = ((applyOp op s).tasks.front.length : Int) := by
  cases op with
  | scheduleTask t =>
    show (scheduleTask t s).tasks.count = ((scheduleTask t s).tasks.front.length : Int)
    rw [scheduleTask_length]
    show s.tasks.count + 1 = _
    rw [h]
    push_cast
    rfl
  | enableTask ID =>
    show (enableTask ID s).1.tasks.count = ((enableTask ID s).1.tasks.front.length : Int)
    rw [enableTask_length]
    exact h
  | disableTask ID =>
    show (disableTask ID s).1.tasks.count = ((disableTask ID s).1.tasks.front.length : Int)
    rw [disableTask_length]
    exact h
  | getTaskTimeElapsed ID => exact h
  | scheduleTimerISR =>
    show (scheduleTimerISR s).1.tasks.count = ((scheduleTimerISR s).1.tasks.front.length : Int)
    rw [scheduleTimerISR_length, scheduleTimerISR_count]
    exact h

theorem applyOps_count (ops : List Op) :
    ∀ s : Scheduler, s.tasks.count = (s.tasks.front.length : Int) →
      (applyOps ops s).tasks.count = ((applyOps ops s).tasks.front.length : Int) := by
  induction ops with
  | nil => intro s h; exact h
  | cons op rest ih =>
    intro s h
    exact ih (applyOp op s) (applyOp_count op s h)

/-- C16: `initScheduler` empties the registry and sets `tasks.count` to 0; `scheduleTask`
adds exactly 1 to `tasks.count` and to the number of nodes; `enableTask`, `disableTask`,
`getTaskTimeElapsed` and `scheduleTimerISR` change neither; hence in every state reached from
`initScheduler` by such calls `tasks.count` is the number of nodes of the registry. -/
theorem count_is_registry_length :
    (∀ (period : Int) (s0 : Scheduler),
      (initScheduler period s0).tasks.count = 0 ∧ (initScheduler period s0).tasks.front = [])
    ∧ (∀ (t : task) (s : Scheduler),
        (scheduleTask t s).tasks.count = s.tasks.count + 1
        ∧ (scheduleTask t s).tasks.front.length = s.tasks.front.length + 1)
    ∧ (∀ (ID : Int) (s : Scheduler),
        ((enableTask ID s).1.tasks.count = s.tasks.count
          ∧ (enableTask ID s).1.tasks.front.length = s.tasks.front.length)
        ∧ ((disableTask ID s).1.tasks.count = s.tasks.count
          ∧ (disableTask ID s).1.tasks.front.length = s.tasks.front.length)
        ∧ ((getTaskTimeElapsed ID s).1.tasks.count = s.tasks.count
          ∧ (getTaskTimeElapsed ID s).1.tasks.front.length = s.tasks.front.length))
    ∧ (∀ s : Scheduler,
        (scheduleTimerISR s).1.tasks.count = s.tasks.count
        ∧ (scheduleTimerISR s).1.tasks.front.length = s.tasks.front.length)
    ∧ (∀ (period : Int) (s0 : Scheduler) (ops : List Op),
        (applyOps ops (initScheduler period s0)).tasks.count
          = ((applyOps ops (initScheduler period s0)).tasks.front.length : Int)) := by
  refine ⟨fun _ _ => ⟨rfl, rfl⟩, fun t s => ⟨rfl, scheduleTask_length t s⟩, ?_, ?_, ?_⟩
  · intro ID s
    exact ⟨⟨rfl, enableTask_length ID s⟩, ⟨rfl, disableTask_length ID s⟩, ⟨rfl, rfl⟩⟩
  · intro s
    exact ⟨scheduleTimerISR_count s, scheduleTimerISR_length s⟩
  · intro period s0 ops
    exact applyOps_count ops (initScheduler period s0) rfl

/-! ## Exact firing schedule -/

theorem ceilDiv_le_iff (P T j : Int) (hT : 0 < T) : ceilDiv P T ≤ j ↔ P ≤ j * T := by
  unfold ceilDiv
  have h1 : (P + T - 1) / T * T ≤ P + T - 1 := Int.ediv_mul_le _ (ne_of_gt hT)
  have h2 : P + T - 1 < ((P + T - 1) / T + 1) * T := Int.lt_ediv_add_one_mul_self _ hT
  constructor
  · intro h
    have h3 : ((P + T - 1) / T + 1) * T ≤ (j + 1) * T :=
      mul_le_mul_of_nonneg_right (by omega) (le_of_lt hT)
    nlinarith
  · intro h
    have h3 : (P + T - 1) / T * T < (j + 1) * T := by nlinarith
    have h4 : (P + T - 1) / T < j + 1 := lt_of_mul_lt_mul_right h3 (le_of_lt hT)
    omega

theorem ceilDiv_pos (P T : Int) (hP : 0 < P) (hT : 0 < T) : 1 ≤ ceilDiv P T := by
  by_contra h
  have h0 : ceilDiv P T ≤ 0 := by omega
  have := (ceilDiv_le_iff P T 0 hT).mp h0
  omega

theorem runPasses_succ (n : Nat) :
    ∀ s : Scheduler,
      (runPasses (n + 1) s).1 = (scheduleTimerISR (runPasses n s).1).1
      ∧ (runPasses (n + 1) s).2 = (runPasses n s).2 ++ [(scheduleTimerISR (runPasses n s).1).2] := by
  induction n with
  | zero => intro s; exact ⟨rfl, rfl⟩
  | succ n ih =>
    intro s
    have h := ih (scheduleTimerISR s).1
    constructor
    · show (runPasses (n + 1) (scheduleTimerISR s).1).1 = _
      rw [h.1]
      rfl
    · show (scheduleTimerISR s).2 :: (runPasses (n + 1) (scheduleTimerISR s).1).2 = _
      rw [h.2]
      rfl

theorem runPasses_last_pass (n : Nat) (s : Scheduler) :
    (runPasses (n + 1) s).2[n]? = some (scheduleTimerISR (runPasses n s).1).2 := by
  rw [(runPasses_succ n s).2]
  have hlen := runPasses_length n s
  rw [List.getElem?_append_right (by omega)]
  simp [hlen]

theorem call_for_node_iff (l : List task) (i : Nat) (t : task) (ht : l[i]? = some t) :
    (∃ x ∈ dueCalls 0 l, x.node = i) ↔ due t = true := by
  constructor
  · rintro ⟨x, hx, hxi⟩
    obtain ⟨n, u, hn, hu, hxu⟩ := mem_dueCalls l 0 x hx
    have hni : n = i := by rw [hxu] at hxi; simpa using hxi
    rw [hni, ht] at hn
    rw [Option.some.inj hn]
    exact hu
  · intro hd
    refine ⟨{ node := 0 + i, func := t.func }, mem_dueCalls_of_due l 0 i t ht hd, ?_⟩
    simp

theorem cycle_step (c m j : Nat) (hc : 1 ≤ c)
    (h : (m = 0 ∧ j = 0) ∨ ∃ q r : Nat, m = q * c + r + 1 ∧ r < c ∧ j = r + 1) :
    j ≤ c ∧ (c ≤ j ↔ (0 < m ∧ c ∣ m))
    ∧ ((m + 1 = 0 ∧ (if c ≤ j then 1 else j + 1) = 0)
        ∨ ∃ q r : Nat, m + 1 = q * c + r + 1 ∧ r < c ∧ (if c ≤ j then 1 else j + 1) = r + 1) := by
  rcases h with ⟨hm, hj⟩ | ⟨q, r, hm, hr, hj⟩
  · subst hm
    subst hj
    refine ⟨by omega, ⟨fun h => by omega, fun h => by omega⟩, Or.inr ⟨0, 0, by omega, by omega, ?_⟩⟩
    rw [if_neg (by omega)]
  · refine ⟨by omega, ⟨?_, ?_⟩, Or.inr ?_⟩
    · intro hcj
      have hrc : r + 1 = c := by omega
      refine ⟨by omega, ⟨q + 1, ?_⟩⟩
      rw [hm, Nat.mul_succ, Nat.mul_comm c q]
      omega
    · rintro ⟨_, hdvd⟩
      rw [hm, Nat.add_assoc] at hdvd
      have h2 : c ∣ r + 1 := (Nat.dvd_add_right (Nat.dvd_mul_left c q)).mp hdvd
      have h3 : c ≤ r + 1 := Nat.le_of_dvd (by omega) h2
      omega
    · by_cases hcj : c ≤ j
      · rw [if_pos hcj]
        refine ⟨q + 1, 0, ?_, by omega, rfl⟩
        rw [hm, Nat.succ_mul]
        omega
      · rw [if_neg hcj]
        exact ⟨q, r + 1, by omega, by omega, by omega⟩

theorem firing_step (c : Nat) (T P : Int) (t0 : task) (i : Nat) (hc : 1 ≤ c)
    (hdue : ∀ j : Nat, (P ≤ (j : Int) * T ↔ c ≤ j)) (hT : 0 < T)
    (hfit : (c : Int) * T ≤ LONG_MAX) (hen : t0.isEnabled = true) (hper : t0.period = P)
    (m j : Nat) (s : Scheduler) (hg : s.processingTasks = false) (hs : s.TIMER1_PERIOD = T)
    (hreg : s.tasks.front[i]? = some { t0 with elapsedTime := (j : Int) * T })
    (hinv : (m = 0 ∧ j = 0) ∨ ∃ q r : Nat, m = q * c + r + 1 ∧ r < c ∧ j = r + 1) :
    ((scheduleTimerISR s).1.processingTasks = false
      ∧ (scheduleTimerISR s).1.TIMER1_PERIOD = T
      ∧ ∃ j2 : Nat,
          (scheduleTimerISR s).1.tasks.front[i]? = some { t0 with elapsedTime := (j2 : Int) * T }
          ∧ ((m + 1 = 0 ∧ j2 = 0) ∨ ∃ q r : Nat, m + 1 = q * c + r + 1 ∧ r < c ∧ j2 = r + 1))
    ∧ ((∃ x ∈ (scheduleTimerISR s).2, x.node = i) ↔ (0 < m ∧ c ∣ m)) := by
  obtain ⟨hjc, hiff, hnext⟩ := cycle_step c m j hc hinv
  have hcalls : (∃ x ∈ (scheduleTimerISR s).2, x.node = i)
      ↔ due { t0 with elapsedTime := (j : Int) * T } = true := by
    rw [scheduleTimerISR_guard_clear s hg]
    exact call_for_node_iff s.tasks.front i _ hreg
  have hdue2 : due { t0 with elapsedTime := (j : Int) * T } = true ↔ c ≤ j := by
    unfold due
    simp only [hen, Bool.true_and, decide_eq_true_eq, hper]
    exact hdue j
  have hT1 : T ≤ (c : Int) * T := by
    have : (1 : Int) ≤ (c : Int) := by exact_mod_cast hc
    nlinarith
  refine ⟨⟨?_, ?_, if c ≤ j then 1 else j + 1, ?_, hnext⟩, hcalls.trans (hdue2.trans hiff)⟩
  · rw [scheduleTimerISR_guard_clear s hg]
  · rw [scheduleTimerISR_guard_clear s hg]
    exact hs
  · rw [scheduleTimerISR_guard_clear s hg]
    show (s.tasks.front.map (nodeAfterPass s.TIMER1_PERIOD))[i]? = _
    rw [List.getElem?_map, hreg, hs]
    simp only [Option.map_some']
    congr 1
    unfold nodeAfterPass
    simp only [hen, if_true, hper]
    by_cases hcj : c ≤ j
    · have hge : (j : Int) * T ≥ P := (hdue j).mpr hcj
      rw [if_pos hge, if_pos hcj, wrapLong_of_inRange _ (by unfold LONG_MIN; omega) (by omega)]
      simp
    · have hlt : ¬ (j : Int) * T ≥ P := fun h => hcj ((hdue j).mp h)
      have hj1 : ((j : Int) + 1) * T ≤ (c : Int) * T := by
        have : (j : Int) + 1 ≤ (c : Int) := by exact_mod_cast (by omega : j + 1 ≤ c)
        exact mul_le_mul_of_nonneg_right this (le_of_lt hT)
      have hj0 : 0 ≤ (j : Int) * T := by positivity
      rw [if_neg hlt, if_neg hcj, wrapLong_of_inRange _ (by unfold LONG_MIN; omega)
        (by nlinarith)]
      congr 1
      push_cast
      ring

theorem firing_invariant (c : Nat) (T P : Int) (t0 : task) (i : Nat) (hc : 1 ≤ c)
    (hdue : ∀ j : Nat, (P ≤ (j : Int) * T ↔ c ≤ j)) (hT : 0 < T)
    (hfit : (c : Int) * T ≤ LONG_MAX) (hen : t0.isEnabled = true) (hper : t0.period = P)
    (s : Scheduler) (hg : s.processingTasks = false) (hs : s.TIMER1_PERIOD = T)
    (hreg : s.tasks.front[i]? = some { t0 with elapsedTime := ((0 : Nat) : Int) * T }) :
    ∀ m : Nat,
      (runPasses m s).1.processingTasks = false
      ∧ (runPasses m s).1.TIMER1_PERIOD = T
      ∧ ∃ j : Nat,
          (runPasses m s).1.tasks.front[i]? = some { t0 with elapsedTime := (j : Int) * T }
          ∧ ((m = 0 ∧ j = 0) ∨ ∃ q r : Nat, m = q * c + r + 1 ∧ r < c ∧ j = r + 1) := by
  intro m
  induction m with
  | zero => exact ⟨hg, hs, 0, hreg, Or.inl ⟨rfl, rfl⟩⟩
  | succ m ih =>
    obtain ⟨hg2, hs2, j, hreg2, hinv⟩ := ih
    rw [(runPasses_succ m s).1]
    exact (firing_step c T P t0 i hc hdue hT hfit hen hper m j (runPasses m s).1 hg2 hs2 hreg2
      hinv).1

/-- C19: exact firing schedule. Let the node at position `i` be a descriptor made by
`createTask` with period `P > 0` and enabled, the guard be clear, the tick period be `T > 0`,
and `c = ceilDiv P T` (`P / T` rounded up). Provided `c * T` is within the range of `long`, so
that `elapsedTime` never overflows and the 32-bit sums are the sums over the integers: the
`n`-th pass of `scheduleTimerISR` (counted from 1) makes a call for node `i` if and only if
`n > 1` and `n - 1` is a multiple of `c`. -/
theorem exact_firing_schedule (s : Scheduler) (i : Nat) (ID P : Int) (f : taskFunc)
    (pr : taskPriority) (hg : s.processingTasks = false)
    (hreg : s.tasks.front[i]? = some (createTask ID P f pr true))
    (hP : 0 < P) (hT : 0 < s.TIMER1_PERIOD)
    (hfit : ceilDiv P s.TIMER1_PERIOD * s.TIMER1_PERIOD ≤ LONG_MAX)
    (n : Nat) (hn : 1 ≤ n) :
    ∃ p : List call, (runPasses n s).2[n - 1]? = some p
      ∧ ((∃ x ∈ p, x.node = i)
          ↔ (1 < n ∧ ceilDiv P s.TIMER1_PERIOD ∣ ((n : Int) - 1))) := by
  obtain ⟨m, rfl⟩ : ∃ m, n = m + 1 := ⟨n - 1, by omega⟩
  have hc1 : 1 ≤ ceilDiv P s.TIMER1_PERIOD := ceilDiv_pos P s.TIMER1_PERIOD hP hT
  have hcast : (((ceilDiv P s.TIMER1_PERIOD).toNat : Nat) : Int) = ceilDiv P s.TIMER1_PERIOD :=
    Int.toNat_of_nonneg (by omega)
  have hc : 1 ≤ (ceilDiv P s.TIMER1_PERIOD).toNat := by omega
  have hdue : ∀ j : Nat, (P ≤ (j : Int) * s.TIMER1_PERIOD
      ↔ (ceilDiv P s.TIMER1_PERIOD).toNat ≤ j) := by
    intro j
    rw [← ceilDiv_le_iff P s.TIMER1_PERIOD j hT]
    omega
  have hfit2 : (((ceilDiv P s.TIMER1_PERIOD).toNat : Nat) : Int) * s.TIMER1_PERIOD ≤ LONG_MAX := by
    rw [hcast]; exact hfit
  have hreg0 : s.tasks.front[i]?
      = some { createTask ID P f pr true with
          elapsedTime := ((0 : Nat) : Int) * s.TIMER1_PERIOD } := by
    rw [hreg]
    simp [createTask]
  obtain ⟨hg2, hs2, j, hreg2, hinv⟩ :=
    firing_invariant (ceilDiv P s.TIMER1_PERIOD).toNat s.TIMER1_PERIOD P
      (createTask ID P f pr true) i hc hdue hT hfit2 rfl rfl s hg rfl hreg0 m
  have hstep := (firing_step (ceilDiv P s.TIMER1_PERIOD).toNat s.TIMER1_PERIOD P
      (createTask ID P f pr true) i hc hdue hT hfit2 rfl rfl m j (runPasses m s).1 hg2 hs2 hreg2
      hinv).2
  refine ⟨(scheduleTimerISR (runPasses m s).1).2, ?_, ?_⟩
  · simpa using runPasses_last_pass m s
  · rw [hstep]
    have hdvd : (ceilDiv P s.TIMER1_PERIOD).toNat ∣ m
        ↔ ceilDiv P s.TIMER1_PERIOD ∣ (((m + 1 : Nat) : Int) - 1) := by
      rw [← hcast]
      have : (((m + 1 : Nat) : Int) - 1) = (m : Int) := by push_cast; ring
      rw [this]
      exact Int.natCast_dvd_natCast.symm
    rw [hdvd]
    constructor
    · rintro ⟨h1, h2⟩; exact ⟨by omega, h2⟩
    · rintro ⟨h1, h2⟩; exact ⟨by omega, h2⟩

/-- C19 at a concrete input: A of the scenario (node 0, period 3) with tick period 1, so
`c = 3`; pass 4 is the first with `n - 1` a multiple of 3. -/
theorem exact_firing_schedule_witness :
    ∃ p : List call, (runPasses 4 scenarioStart).2[4 - 1]? = some p
      ∧ ((∃ x ∈ p, x.node = 0)
          ↔ (1 < 4 ∧ ceilDiv 3 scenarioStart.TIMER1_PERIOD ∣ (((4 : Nat) : Int) - 1))) :=
  exact_firing_schedule scenarioStart 0 1 3 100 PRIOR_HIGH (by decide) (by decide) (by decide)
    (by decide) (by decide) 4 (by decide)

/-! ## The `-1` sentinel -/

theorem nodeAfterPass_noOverflow (T : Int) (u : task) (hT0 : 0 ≤ T) (hT1 : T ≤ LONG_MAX)
    (h : noOverflowNode T u) : noOverflowNode T (nodeAfterPass T u) := by
  obtain ⟨j, he, hj, hc⟩ := h
  have hj0 : 0 ≤ (j : Int) * T := by positivity
  unfold nodeAfterPass
  by_cases hen : u.isEnabled = true
  · rw [if_pos hen]
    by_cases hge : u.elapsedTime ≥ u.period
    · rw [if_pos hge, wrapLong_of_inRange _ (by unfold LONG_MIN; omega) (by omega)]
      exact ⟨1, by simp, by simpa using hT1, hc⟩
    · rw [if_neg hge]
      have hsum : (j : Int) * T + T ≤ LONG_MAX := by
        rcases eq_or_lt_of_le hT0 with h0 | hpos
        · rw [← h0]; simp [LONG_MAX]
        · have hnc : ¬ ceilDiv u.period T ≤ (j : Int) := by
            intro hle
            have := (ceilDiv_le_iff u.period T j hpos).mp hle
            omega
          have hle : ((j : Int) + 1) * T ≤ ceilDiv u.period T * T :=
            mul_le_mul_of_nonneg_right (by omega) hT0
          nlinarith
      rw [he, wrapLong_of_inRange _ (by unfold LONG_MIN; omega) hsum]
      refine ⟨j + 1, ?_, ?_, hc⟩
      · push_cast; ring
      · push_cast; nlinarith
  · rw [if_neg hen]
    exact ⟨j, he, hj, hc⟩

theorem mem_enableTaskLoop (ID : Int) (l : List task) :
    ∀ v ∈ (enableTaskLoop ID l).1,
      ∃ u ∈ l, v.elapsedTime = u.elapsedTime ∧ v.period = u.period := by
  induction l with
  | nil => intro v hv; simp [enableTaskLoop] at hv
  | cons a rest ih =>
    intro v hv
    unfold enableTaskLoop at hv
    by_cases ha : a.ID = ID
    · rw [if_pos ha] at hv
      rcases List.mem_cons.mp hv with h1 | h1
      · exact ⟨a, by simp, by rw [h1], by rw [h1]⟩
      · exact ⟨v, List.mem_cons_of_mem _ h1, rfl, rfl⟩
    · rw [if_neg ha] at hv
      rcases List.mem_cons.mp hv with h1 | h1
      · exact ⟨a, by simp, by rw [h1], by rw [h1]⟩
      · obtain ⟨u, hu, h2, h3⟩ := ih v h1
        exact ⟨u, List.mem_cons_of_mem _ hu, h2, h3⟩

theorem mem_disableTaskLoop (ID : Int) (l : List task) :
    ∀ v ∈ (disableTaskLoop ID l).1,
      ∃ u ∈ l, v.elapsedTime = u.elapsedTime ∧ v.period = u.period := by
  induction l with
  | nil => intro v hv; simp [disableTaskLoop] at hv
  | cons a rest ih =>
    intro v hv
    unfold disableTaskLoop at hv
    by_cases ha : a.ID = ID
    · rw [if_pos ha] at hv
      rcases List.mem_cons.mp hv with h1 | h1
      · exact ⟨a, by simp, by rw [h1], by rw [h1]⟩
      · exact ⟨v, List.mem_cons_of_mem _ h1, rfl, rfl⟩
    · rw [if_neg ha] at hv
      rcases List.mem_cons.mp hv with h1 | h1
      · exact ⟨a, by simp, by rw [h1], by rw [h1]⟩
      · obtain ⟨u, hu, h2, h3⟩ := ih v h1
        exact ⟨u, List.mem_cons_of_mem _ hu, h2, h3⟩

theorem noOverflowNode_of_fields (T : Int) (u v : task) (h1 : v.elapsedTime = u.elapsedTime)
    (h2 : v.period = u.period) (h : noOverflowNode T u) : noOverflowNode T v := by
  obtain ⟨j, he, hj, hc⟩ := h
  exact ⟨j, by rw [h1, he], hj, by rw [h2]; exact hc⟩

theorem mem_scheduleTask (t : task) (s : Scheduler) :
    ∀ v ∈ (scheduleTask t s).tasks.front, v = t ∨ v ∈ s.tasks.front := by
  intro v hv
  have hpos : (scheduleTask t s).tasks.front
      = s.tasks.front.take (insertPosition t s.tasks.front)
          ++ t :: s.tasks.front.drop (insertPosition t s.tasks.front) := by
    unfold scheduleTask
    cases hl : s.tasks.front with
    | nil => simp [insertPosition]
    | cons c rest => exact insertAfterCursor_position t rest c
  rw [hpos] at hv
  rcases List.mem_append.mp hv with h1 | h1
  · exact Or.inr (List.mem_of_mem_take h1)
  · rcases List.mem_cons.mp h1 with h2 | h2
    · exact Or.inl h2
    · exact Or.inr (List.mem_of_mem_drop h2)

theorem applyOp_timer (op : Op) (s : Scheduler) :
    (applyOp op s).TIMER1_PERIOD = s.TIMER1_PERIOD := by
  cases op with
  | scheduleTask t => rfl
  | enableTask ID => rfl
  | disableTask ID => rfl
  | getTaskTimeElapsed ID => rfl
  | scheduleTimerISR =>
    show (scheduleTimerISR s).1.TIMER1_PERIOD = s.TIMER1_PERIOD
    cases hg : s.processingTasks with
    | true => rw [scheduleTimerISR_guard_set s hg]
    | false => rw [scheduleTimerISR_guard_clear s hg]

theorem applyOp_noOverflow (op : Op) (s : Scheduler) (hT0 : 0 ≤ s.TIMER1_PERIOD)
    (hT1 : s.TIMER1_PERIOD ≤ LONG_MAX)
    (hinv : ∀ u ∈ s.tasks.front, noOverflowNode s.TIMER1_PERIOD u)
    (hop : ∀ t : task, op = Op.scheduleTask t → noOverflowNode s.TIMER1_PERIOD t) :
    ∀ v ∈ (applyOp op s).tasks.front, noOverflowNode s.TIMER1_PERIOD v := by
  intro v hv
  cases op with
  | scheduleTask t =>
    rcases mem_scheduleTask t s v hv with h1 | h1
    · rw [h1]; exact hop t rfl
    · exact hinv v h1
  | enableTask ID =>
    obtain ⟨u, hu, h1, h2⟩ := mem_enableTaskLoop ID s.tasks.front v hv
    exact noOverflowNode_of_fields _ u v h1 h2 (hinv u hu)
  | disableTask ID =>
    obtain ⟨u, hu, h1, h2⟩ := mem_disableTaskLoop ID s.tasks.front v hv
    exact noOverflowNode_of_fields _ u v h1 h2 (hinv u hu)
  | getTaskTimeElapsed ID => exact hinv v hv
  | scheduleTimerISR =>
    have hv2 : v ∈ (scheduleTimerISR s).1.tasks.front := hv
    cases hg : s.processingTasks with
    | true =>
      rw [scheduleTimerISR_guard_set s hg] at hv2
      exact hinv v hv2
    | false =>
      rw [scheduleTimerISR_guard_clear s hg] at hv2
      obtain ⟨u, hu, huv⟩ := List.mem_map.mp hv2
      rw [← huv]
      exact nodeAfterPass_noOverflow _ u hT0 hT1 (hinv u hu)

theorem applyOps_noOverflow (T : Int) (hT0 : 0 ≤ T) (hT1 : T ≤ LONG_MAX) (ops : List Op) :
    ∀ s : Scheduler, s.TIMER1_PERIOD = T → (∀ u ∈ s.tasks.front, noOverflowNode T u) →
      (∀ t : task, Op.scheduleTask t ∈ ops → noOverflowNode T t) →
      ∀ v ∈ (applyOps ops s).tasks.front, noOverflowNode T v := by
  induction ops with
  | nil => intro s _ hinv _; exact hinv
  | cons op rest ih =>
    intro s hs hinv hops
    subst hs
    refine ih (applyOp op s) (applyOp_timer op s) ?_ (fun t ht => hops t (by simp [ht]))
    exact applyOp_noOverflow op s hT0 hT1 hinv (fun t ht => hops t (by simp [ht]))

/-- C20: the `-1` sentinel is unambiguous when the tick period is non-negative. Take any state
reached from `initScheduler(T)`, `0 <= T`, by calls of `scheduleTask` on descriptors made by
`createTask`, `enableTask`, `disableTask`, `getTaskTimeElapsed` and `scheduleTimerISR`.
Provided no `elapsedTime` can overflow, so that the 32-bit sums are the sums over the integers
(`T` is a `long`, and for each registered period `P` the value `ceilDiv P T * T` is within the
range of `long`): every descriptor has `elapsedTime >= 0`, and `getTaskTimeElapsed(ID)` returns
`-1` if and only if no registered descriptor has that ID. -/
theorem sentinel_unambiguous (period : Int) (s0 : Scheduler) (ops : List Op)
    (hT0 : 0 ≤ period) (hT1 : period ≤ LONG_MAX)
    (hops : ∀ t : task, Op.scheduleTask t ∈ ops →
      ∃ (ID P : Int) (f : taskFunc) (pr : taskPriority) (en : Bool),
        t = createTask ID P f pr en ∧ ceilDiv P period * period ≤ LONG_MAX) :
    (∀ u ∈ (applyOps ops (initScheduler period s0)).tasks.front, 0 ≤ u.elapsedTime)
    ∧ ∀ ID : Int,
        ((getTaskTimeElapsed ID (applyOps ops (initScheduler period s0))).2 = -1
          ↔ ¬ ∃ u ∈ (applyOps ops (initScheduler period s0)).tasks.front, u.ID = ID) := by
  have hinv : ∀ v ∈ (applyOps ops (initScheduler period s0)).tasks.front,
      noOverflowNode period v := by
    refine applyOps_noOverflow period hT0 hT1 ops (initScheduler period s0) rfl ?_ ?_
    · intro u hu
      simp [initScheduler] at hu
    · intro t ht
      obtain ⟨ID, P, f, pr, en, hcreate, hfit⟩ := hops t ht
      rw [hcreate]
      exact ⟨0, by simp [createTask], by simp [LONG_MAX], hfit⟩
  have hnonneg : ∀ u ∈ (applyOps ops (initScheduler period s0)).tasks.front,
      0 ≤ u.elapsedTime := by
    intro u hu
    obtain ⟨j, he, _, _⟩ := hinv u hu
    rw [he]
    positivity
  refine ⟨hnonneg, ?_⟩
  intro ID
  constructor
  · intro hres hex
    obtain ⟨i, t, hi, hid, hfirst⟩ := exists_first_with_ID ID _ hex
    subst hid
    have hval := getTaskTimeElapsedLoop_at _ i t hi hfirst
    have hmem : t ∈ (applyOps ops (initScheduler period s0)).tasks.front :=
      List.getElem?_mem hi
    have h0 := hnonneg t hmem
    simp only [getTaskTimeElapsed] at hres
    omega
  · intro hno
    simp only [getTaskTimeElapsed]
    exact getTaskTimeElapsedLoop_none ID _ (fun t ht hid => hno ⟨t, ht, hid⟩)

/-- C20 at a concrete input: tick period 1, A and B of the scenario registered, B disabled,
three passes, B enabled; ID 9 is not registered and the answer for it is `-1`. -/
theorem sentinel_unambiguous_witness :
    (∀ u ∈ (applyOps [Op.scheduleTask scenarioA, Op.scheduleTask scenarioB, Op.disableTask 2,
          Op.scheduleTimerISR, Op.scheduleTimerISR, Op.scheduleTimerISR, Op.enableTask 2]
          (initScheduler 1 startupGlobals)).tasks.front, 0 ≤ u.elapsedTime)
    ∧ ∀ ID : Int,
        ((getTaskTimeElapsed ID (applyOps [Op.scheduleTask scenarioA, Op.scheduleTask scenarioB,
            Op.disableTask 2, Op.scheduleTimerISR, Op.scheduleTimerISR, Op.scheduleTimerISR,
            Op.enableTask 2] (initScheduler 1 startupGlobals))).2 = -1
          ↔ ¬ ∃ u ∈ (applyOps [Op.scheduleTask scenarioA, Op.scheduleTask scenarioB,
              Op.disableTask 2, Op.scheduleTimerISR, Op.scheduleTimerISR, Op.scheduleTimerISR,
              Op.enableTask 2] (initScheduler 1 startupGlobals)).tasks.front, u.ID = ID) :=
  sentinel_unambiguous 1 startupGlobals
    [Op.scheduleTask scenarioA, Op.scheduleTask scenarioB, Op.disableTask 2,
      Op.scheduleTimerISR, Op.scheduleTimerISR, Op.scheduleTimerISR, Op.enableTask 2]
    (by decide) (by decide)
    (by
      intro t ht
      simp only [List.mem_cons, Op.scheduleTask.injEq, List.mem_singleton, reduceCtorEq,
        or_false, List.not_mem_nil] at ht
      rcases ht with h | h
      · exact ⟨1, 3, 100, PRIOR_HIGH, true, h, by decide⟩
      · exact ⟨2, 1, 200, PRIOR_LOW, true, h, by decide⟩)

end TaskScheduler
